import Mathlib

/-!
# farewell-theorem: verification of `script.js`

A shallow embedding of the page script.  Conventions of the embedding:

* JavaScript numbers are exact rationals (`ℚ`); decimal literals of the source
  (`0.92`, `0.01`, ...) denote the corresponding decimal fractions, and the
  rounding of arithmetic on IEEE doubles is not modelled.  The one number that
  comes from outside, the counter target returned by `parseFloat`, is a `Num`:
  `NaN`, an infinity, or the exact value of the double the host returned.
* The host functions `parseFloat` and `Number.prototype.toString` are
  parameters (`hostParseFloat`, `hostToString`).  `toFixed(2)` below `10^21` and
  `toString` of integers up to `2^53` in magnitude are computed, since there the
  host writes plain digits.
* `Math.random()` is an oracle `rng : ℕ → ℚ`; the page counts the draws made so
  far (`Page.draws`), so the `k`-th call of the session returns `rng k`.
* `Math.sin`, the clock behind `stamp()` and the handles handed out by
  `setTimeout`/`setInterval` are inputs of the model.
* Every DOM lookup of the script (`getElementById`, `querySelector`) is an
  `Option`: `none` is the `null` the script gets for an absent element.
* A JavaScript string is a Lean `String`; only strings of Unicode scalar values
  are represented.  Where the script counts UTF-16 code units (`slice`,
  `length`) the model works on the list of code units (`utf16`).
* A function that can throw returns an `Outcome`: the page as the throw left it
  and the error, if any.
-/

namespace Farewell

/-! ## Data model -/

/-- Uncaught exceptions of the script. -/
inductive JSError where
  | typeError (what : String)
  deriving DecidableEq, Repr

/-- One star of the background (`createStars`). -/
structure Star where
  x : ℚ
  y : ℚ
  z : ℚ
  r : ℚ
  tw : ℚ
  hue : ℚ
  deriving DecidableEq, Repr

/-- A `div.eq` element: its markup, the custom properties `--x --y --dx --dy --r`
(in px, px, px, px, deg), the animation duration in seconds, font size in px and
opacity.  `id` is the identity of the DOM node. -/
structure FloatEl where
  id : ℕ
  className : String
  innerHTML : String
  varX : ℚ
  varY : ℚ
  varDx : ℚ
  varDy : ℚ
  varR : ℚ
  animationDuration : ℚ
  fontSize : ℚ
  opacity : ℚ
  deriving DecidableEq, Repr

/-- A `div.note` card; `noteText` and `noteStamp` are the markup placed inside the
`note__text` and `note__stamp` children by the template of `addNote`. -/
structure Card where
  className : String
  noteText : String
  noteStamp : String
  deriving DecidableEq, Repr

/-- The `#toast` element. -/
structure Toast where
  textContent : String
  shown : Bool
  deriving DecidableEq, Repr

/-- The `.typewriter` element; `textContent` is kept as UTF-16 code units, since
`slice` can cut a surrogate pair. -/
structure TwEl where
  dataText : Option String
  textContent : List ℕ
  deriving DecidableEq, Repr

/-- What a timer runs when it fires. -/
inductive Callback where
  | spawnEquation
  | removeEl (id : ℕ)
  | hideToast
  | resetWarp
  | fireworksBurst
  deriving DecidableEq, Repr

/-- An entry of the host's list of active timers. -/
structure Timer where
  handle : ℕ
  delay : ℚ
  repeating : Bool
  callback : Callback
  deriving DecidableEq, Repr

/-- One confetti particle; `hue` is `none` when the table lookup gave `undefined`. -/
structure Piece where
  x : ℚ
  y : ℚ
  vx : ℚ
  vy : ℚ
  g : ℚ
  life : ℚ
  size : ℚ
  hue : Option ℚ
  deriving DecidableEq, Repr

/-- The closure state of one `burstConfetti` call. -/
structure Burst where
  frame : ℕ
  pieces : List Piece
  deriving DecidableEq, Repr

/-- Canvas operations issued by the script. -/
inductive DrawCmd where
  | clearRect (x y w h : ℚ)
  | vignette (cx cy radius x y w h : ℚ)
  | arc (hue : ℚ) (saturation lightness : ℕ) (alpha x y radius : ℚ)
  | fillRect (hue : Option ℚ) (alpha x y w h : ℚ)
  deriving DecidableEq, Repr

/-- The globals of the script together with the DOM elements it looks up. -/
structure Page where
  w : ℚ
  h : ℚ
  stars : List Star
  warp : ℚ
  ambientMode : Bool
  eqLayer : Option (List FloatEl)
  eqTimer : Option ℕ
  twEl : Option TwEl
  idx : ℕ
  toast : Option Toast
  toastTimer : Option ℕ
  noteForm : Bool
  noteInput : Option String
  noteStream : Option (List Card)
  timers : List Timer
  nextHandle : ℕ
  nextId : ℕ
  draws : ℕ
  bursts : List Burst
  deriving DecidableEq, Repr

/-- Result of running a handler: the page it left and the exception it threw. -/
structure Outcome where
  page : Page
  thrown : Option JSError
  deriving DecidableEq, Repr

/-- The submit event seen by the note form handler. -/
structure SubmitEvent where
  defaultPrevented : Bool
  deriving DecidableEq, Repr

/-! ## Host functions -/

/-- The value of the double `Math.PI`. -/
def Math_PI : ℚ := 884279719003555 / 281474976710656

/-- Registers a one-shot timer and returns the page with the handle. -/
def setTimeout (cb : Callback) (delay : ℚ) (p : Page) : Page × ℕ :=
  ({ p with timers := p.timers ++ [⟨p.nextHandle, delay, false, cb⟩],
            nextHandle := p.nextHandle + 1 }, p.nextHandle)

/-- Registers a repeating timer and returns the page with the handle. -/
def setInterval (cb : Callback) (delay : ℚ) (p : Page) : Page × ℕ :=
  ({ p with timers := p.timers ++ [⟨p.nextHandle, delay, true, cb⟩],
            nextHandle := p.nextHandle + 1 }, p.nextHandle)

/-- Both `clearTimeout` and `clearInterval`: the argument is converted to a number
(`null` becomes `0`) and the timer with that handle, if any, is dropped. -/
def clearTimer (handle : Option ℕ) (p : Page) : Page :=
  { p with timers := p.timers.filter (fun t => t.handle != handle.getD 0) }

/-- Truthiness of a variable holding `null` or a timer handle. -/
def truthy (v : Option ℕ) : Bool :=
  match v with
  | none => false
  | some n => n != 0

/-- The code points removed by `String.prototype.trim`: ECMAScript `WhiteSpace`
and `LineTerminator`. -/
def isTrimmable (c : Char) : Bool :=
  let n := c.toNat
  n = 0x09 || n = 0x0A || n = 0x0B || n = 0x0C || n = 0x0D || n = 0x20 ||
  n = 0xA0 || n = 0x1680 || (0x2000 ≤ n && n ≤ 0x200A) || n = 0x2028 ||
  n = 0x2029 || n = 0x202F || n = 0x205F || n = 0x3000 || n = 0xFEFF

/-- `String.prototype.trim`. -/
def trim (s : String) : String :=
  String.mk ((s.data.dropWhile isTrimmable).reverse.dropWhile isTrimmable).reverse

/-- `str.replace(re, fn)` for a global regular expression `re` that is one
character class: every character in the class is replaced by the result of the
callback converted to a string (`undefined` becomes the text `undefined`), every
other character is copied. -/
def replaceClass (cls : Char → Bool) (fn : Char → Option String) : List Char → List Char
  | [] => []
  | c :: cs =>
    (if cls c then ((fn c).getD "undefined").data else [c]) ++ replaceClass cls fn cs

/-- `str.replace(lit, by)` for a one-character string `lit`: only the first
occurrence is replaced. -/
def replaceFirst (lit : Char) (sub : List Char) : List Char → List Char
  | [] => []
  | c :: cs => if c = lit then sub ++ cs else c :: replaceFirst lit sub cs

/-! ## `rand`, `createStars`, `drawStars` -/

/-- Source `rand(min, max)`, applied to the draw `u` of `Math.random()`. -/
def rand (u min max : ℚ) : ℚ := u * (max - min) + min

/-- The callback of `Array.from` in `createStars`, run from draw `k` on. -/
def newStar (rng : ℕ → ℚ) (w h : ℚ) (k : ℕ) : Star :=
  { x := rand (rng k) 0 w,
    y := rand (rng (k + 1)) 0 h,
    z := rand (rng (k + 2)) 0.1 1,
    r := rand (rng (k + 3)) 0.6 1.8,
    tw := rand (rng (k + 4)) 0 (Math_PI * 2),
    hue := rand (rng (k + 5)) 190 280 }

/-- Source `Array.from({ length: count }, ...)` of `createStars`. -/
def makeStars (rng : ℕ → ℚ) (w h : ℚ) : ℕ → ℕ → List Star
  | 0, _ => []
  | n + 1, k => newStar rng w h k :: makeStars rng w h n (k + 6)

/-- Source `createStars(count = Math.floor((w * h) / 9000))`; `none` is the call
without argument. -/
def createStars (rng : ℕ → ℚ) (count : Option ℕ) (p : Page) : Page :=
  let n := count.getD (Int.toNat ⌊p.w * p.h / 9000⌋)
  { p with stars := makeStars rng p.w p.h n p.draws, draws := p.draws + 6 * n }

/-- Body of the `for` loop of `drawStars` for one star: the star with its phase
advanced, and the arcs drawn for it. -/
def drawStar (sin : ℚ → ℚ) (w h warp : ℚ) (s : Star) : Star × List DrawCmd :=
  let tw := s.tw + (0.02 + s.z * 0.03)
  let twinkle := 0.55 + sin tw * 0.45
  let dx := (warp * (0.8 + s.z)) * (s.x - w / 2) / (w / 2)
  let dy := (warp * (0.8 + s.z)) * (s.y - h / 2) / (h / 2)
  let x := s.x + dx
  let y := s.y + dy
  let alpha := (0.30 + s.z * 0.55) * twinkle
  ({ s with tw := tw },
   DrawCmd.arc s.hue 95 70 alpha x y (s.r * (0.6 + s.z)) ::
     (if s.z > 0.85 ∧ twinkle > 0.92
      then [DrawCmd.arc s.hue 100 80 (alpha * 0.25) x y (s.r * 6)] else []))

/-- Source `drawStars(t)`: the updated page and the canvas operations. -/
def drawStars (sin : ℚ → ℚ) (p : Page) : Page × List DrawCmd :=
  let drawn := p.stars.map (drawStar sin p.w p.h p.warp)
  ({ p with stars := drawn.map Prod.fst },
   DrawCmd.clearRect 0 0 p.w p.h ::
   DrawCmd.vignette (p.w / 2) (p.h / 2) (max p.w p.h * 0.65) 0 0 p.w p.h ::
   (drawn.map Prod.snd).flatten)

/-! ## Floating equation layer -/

/-- The phrase list `equations`. -/
def equations : List String :=
  ["ŷ = Xβ",
   "H(X) = -∑ p log p",
   "P(A|B)=P(B|A)P(A)/P(B)",
   "X = UΣVᵀ",
   "∇θ L(θ) → 0",
   "E[X] = ∑ x·p(x)",
   "Var(X)=E[X²]-E[X]²",
   "MAE = (1/n)∑|y-ŷ|",
   "RMSE = √((1/n)∑(y-ŷ)²)",
   "SLA = Uptime ≥ 99.9%",
   "MTTR ↓  ⇒  Calm ↑",
   "Signal = Data − Noise"]

/-- Array indexing `arr[i]` with a number `i`: `none` is `undefined`. -/
def index {α : Type} (arr : List α) (i : ℤ) : Option α :=
  if i < 0 then none else arr.get? i.toNat

/-- Source `spawnEquation()`.  Draws, in order: phrase, emphasis, `startX`,
`startY`, `dx`, `dy`, `rot`, `duration`, font size, opacity.  An `undefined`
phrase throws at `txt.replace` when emphasised and is assigned as the text
`undefined` otherwise. -/
def spawnEquation (rng : ℕ → ℚ) (p : Page) : Outcome :=
  let k := p.draws
  let p1 := { p with nextId := p.nextId + 1, draws := k + 2 }
  let txt := index equations ⌊rng k * equations.length⌋
  if rng (k + 1) > 0.7 ∧ txt = none then
    ⟨p1, some (JSError.typeError "txt is undefined")⟩
  else
    let html := if rng (k + 1) > 0.7
      then String.mk (replaceFirst '=' "<strong>=</strong>".data (txt.getD "").data)
      else txt.getD "undefined"
    let startX := rand (rng (k + 2)) (-100) (p.w + 100)
    let startY := rand (rng (k + 3)) (p.h * 0.15) (p.h + 80)
    let dx := rand (rng (k + 4)) (-140) 140
    let dy := rand (rng (k + 5)) 220 560
    let rot := rand (rng (k + 6)) (-8) 8
    let duration := rand (rng (k + 7)) 9 18
    let el : FloatEl :=
      { id := p.nextId, className := "eq", innerHTML := html,
        varX := startX, varY := startY, varDx := dx, varDy := dy, varR := rot,
        animationDuration := duration,
        fontSize := rand (rng (k + 8)) 12 16,
        opacity := rand (rng (k + 9)) 0.22 0.45 }
    let p2 := { p1 with draws := k + 10 }
    match p2.eqLayer with
    | none => ⟨p2, some (JSError.typeError "eqLayer is null")⟩
    | some children =>
      let p3 := { p2 with eqLayer := some (children ++ [el]) }
      ⟨(setTimeout (Callback.removeEl el.id) (duration * 1000 + 1000) p3).1, none⟩

/-- The loop `for (let i = 0; i < 10; i++) setTimeout(spawnEquation, i * 80)`,
from counter value `i` with `n` iterations left. -/
def burstLoop : ℕ → ℕ → Page → Page
  | 0, _, p => p
  | n + 1, i, p => burstLoop n (i + 1) (setTimeout Callback.spawnEquation (i * 80) p).1

/-- Source `startEquations()`. -/
def startEquations (p : Page) : Page :=
  if truthy p.eqTimer then p
  else
    let r := setInterval Callback.spawnEquation 650 p
    burstLoop 10 0 { r.1 with eqTimer := some r.2 }

/-- Source `stopEquations()`. -/
def stopEquations (p : Page) : Page :=
  { clearTimer p.eqTimer p with eqTimer := none }

/-! ## Typewriter -/

/-- The constant `text`: `twEl?.dataset?.text || "A Theorem of Impact"`. -/
def twText (p : Page) : String :=
  match p.twEl with
  | none => "A Theorem of Impact"
  | some el =>
    match el.dataText with
    | none => "A Theorem of Impact"
    | some t => if t.data = [] then "A Theorem of Impact" else t

/-- The UTF-16 code units of a string: one unit for a character below `0x10000`,
a surrogate pair above. -/
def utf16 (s : String) : List ℕ :=
  s.data.flatMap fun c =>
    if c.toNat < 0x10000 then [c.toNat]
    else [0xD800 + (c.toNat - 0x10000) / 0x400, 0xDC00 + (c.toNat - 0x10000) % 0x400]

/-- Source `typeLoop()`; the flag tells whether another frame was requested.
`text.slice(0, idx)` and `text.length` count UTF-16 code units. -/
def typeLoop (p : Page) : Outcome × Bool :=
  match p.twEl with
  | none => (⟨p, none⟩, false)
  | some el =>
    let shown := (utf16 (twText p)).take p.idx
    (⟨{ p with twEl := some { el with textContent := shown }, idx := p.idx + 1 }, none⟩,
     decide (p.idx + 1 ≤ (utf16 (twText p)).length))

/-! ## Toast -/

/-- Source `showToast(msg)`. -/
def showToast (msg : String) (p : Page) : Outcome :=
  match p.toast with
  | none => ⟨p, none⟩
  | some _ =>
    let p1 := { p with toast := some { textContent := msg, shown := true } }
    let r := setTimeout Callback.hideToast 1600 (clearTimer p1.toastTimer p1)
    ⟨{ r.1 with toastTimer := some r.2 }, none⟩

/-! ## Notes wall -/

/-- The object literal of `escapeHTML`, as a lookup: `none` is `undefined`. -/
def escapeTable (m : Char) : Option String :=
  if m = '&' then some "&amp;"
  else if m = '<' then some "&lt;"
  else if m = '>' then some "&gt;"
  else if m = Char.ofNat 34 then some "&quot;"
  else if m = Char.ofNat 39 then some "&#039;"
  else none

/-- The character class of the regular expression of `escapeHTML`. -/
def escapeClass (c : Char) : Bool :=
  c = '&' || c = '<' || c = '>' || c = Char.ofNat 34 || c = Char.ofNat 39

/-- Source `escapeHTML(str)`. -/
def escapeHTML (str : String) : String :=
  String.mk (replaceClass escapeClass escapeTable str.data)

/-- Source `floatMessage(text)`.  Draws, in order: font size, opacity, `startX`,
`dx`, `dy`, `rot`, `duration`. -/
def floatMessage (rng : ℕ → ℚ) (text : String) (p : Page) : Outcome :=
  let k := p.draws
  let duration := rand (rng (k + 6)) 12 20
  let el : FloatEl :=
    { id := p.nextId, className := "eq",
      innerHTML := "“" ++ escapeHTML text ++ "”",
      fontSize := rand (rng k) 12 15,
      opacity := rand (rng (k + 1)) 0.35 0.55,
      varX := rand (rng (k + 2)) 10 (p.w - 10),
      varY := p.h + 30,
      varDx := rand (rng (k + 3)) (-180) 180,
      varDy := rand (rng (k + 4)) 520 820,
      varR := rand (rng (k + 5)) (-10) 10,
      animationDuration := duration }
  let p1 := { p with nextId := p.nextId + 1, draws := k + 7 }
  match p1.eqLayer with
  | none => ⟨p1, some (JSError.typeError "eqLayer is null")⟩
  | some children =>
    let p2 := { p1 with eqLayer := some (children ++ [el]) }
    ⟨(setTimeout (Callback.removeEl el.id) (duration * 1000 + 1000) p2).1, none⟩

/-- Source `addNote(text)`; `stamp` is the result of the call `stamp()`. -/
def addNote (rng : ℕ → ℚ) (stamp : String) (text : String) (p : Page) : Outcome :=
  match p.noteStream with
  | none => ⟨p, none⟩
  | some cards =>
    let card : Card :=
      { className := "note", noteText := escapeHTML text,
        noteStamp := stamp ++ " • logged" }
    floatMessage rng text
      { p with noteStream := some (card :: cards) }

/-- The listener the script registers for `submit` on the note form. -/
def noteSubmit (rng : ℕ → ℚ) (stamp : String) (e : SubmitEvent) (p : Page) :
    Outcome × SubmitEvent :=
  let e1 : SubmitEvent := { e with defaultPrevented := true }
  match p.noteInput with
  | none => (⟨p, some (JSError.typeError "noteInput is null")⟩, e1)
  | some value =>
    let v := trim value
    if v.data = [] then (⟨p, none⟩, e1)
    else
      let r := addNote rng stamp v p
      match r.thrown with
      | some err => (⟨r.page, some err⟩, e1)
      | none =>
        (showToast "Message sent to the stars ✦" { r.page with noteInput := some "" }, e1)

/-- A `submit` event on the note form: `noteForm?.addEventListener` registered the
listener only when the form exists. -/
def submitNoteForm (rng : ℕ → ℚ) (stamp : String) (e : SubmitEvent) (p : Page) :
    Outcome × SubmitEvent :=
  if p.noteForm then noteSubmit rng stamp e p else (⟨p, none⟩, e)

/-! ## Counters -/

/-- Value of a run of decimal digits. -/
def digitsValue (ds : List Char) : ℕ :=
  ds.foldl (fun acc c => 10 * acc + (c.toNat - 48)) 0

/-- Splits an optional leading sign off a literal: whether it is negative, and
the rest. -/
def splitSign (cs : List Char) : Bool × List Char :=
  match cs with
  | '-' :: rest => (true, rest)
  | '+' :: rest => (false, rest)
  | rest => (false, rest)

/-- Reads a plain decimal literal: an optional sign, then digits with an optional
fraction (`42`, `-7`, `3.14`, `5.`, `.5`).  The result is the sign, the digits
read as one natural number and the count of fraction digits. -/
def parseDecimal (s : String) : Option (Bool × ℕ × ℕ) :=
  let signed := splitSign s.data
  let ip := signed.2.takeWhile Char.isDigit
  match signed.2.dropWhile Char.isDigit with
  | [] => if ip = [] then none else some (signed.1, digitsValue ip, 0)
  | '.' :: fr =>
    if fr.all Char.isDigit ∧ ¬ (ip = [] ∧ fr = []) then
      some (signed.1, digitsValue (ip ++ fr), fr.length)
    else none
  | _ => none

/-- The number a plain decimal text denotes, read exactly; `none` for any other
text.  It reads back what the counter displays.  It is not the host function
`parseFloat`, which rounds to a double and accepts more texts: that one is the
parameter `hostParseFloat` of `animateCounter`. -/
def decimalValue (s : String) : Option ℚ :=
  (parseDecimal s).map fun d =>
    (if d.1 then -1 else 1) * (d.2.1 : ℚ) / 10 ^ d.2.2

/-- The plain decimal digits of an integer.  This is what
`Number.prototype.toString` writes for an integral double of magnitude at most
`2^53`; see `numberToString` for the function without that limit. -/
def intToString (n : ℤ) : String :=
  if n < 0 then "-" ++ Nat.repr n.natAbs else Nat.repr n.toNat

/-- The integer `n` of `Number.prototype.toFixed(2)`: `n / 100` is as close as
possible to the magnitude of `x`, the larger `n` on a tie. -/
def hundredths (x : ℚ) : ℕ := Int.toNat ⌊|x| * 100 + 1 / 2⌋

/-- The number written by `x.toFixed(2)`. -/
def fixedValue (x : ℚ) : ℚ := (if x < 0 then -1 else 1) * (hundredths x : ℚ) / 100

/-- The text of `toFixed(2)` from the sign and the integer `n`: the digits of `n`
padded to three, a point before the last two. -/
def fixedString (negative : Bool) (n : ℕ) : String :=
  let m := (Nat.repr n).data
  let m := if m.length ≤ 2 then List.replicate (3 - m.length) '0' ++ m else m
  (if negative then "-" else "") ++ String.mk (m.take (m.length - 2)) ++ "."
    ++ String.mk (m.drop (m.length - 2))

/-- What `x.toFixed(2)` writes for a double of exact value `x` and magnitude below
`10^21`; see `toFixed` for the function without that limit. -/
def toFixed2 (x : ℚ) : String := fixedString (decide (x < 0)) (hundredths x)

/-- The closure variables of one `animateCounter(el)` call whose target is a
finite number. -/
structure Counter where
  target : ℚ
  isFloat : Bool
  start : ℚ
  deriving DecidableEq, Repr

/-- The local `val` of `step(now)` for a finite target. -/
def stepVal (c : Counter) (now : ℚ) : ℚ :=
  let t := min ((now - c.start) / 1400) 1
  let eased := 1 - (1 - t) ^ 3
  c.target * eased

/-- Source `step(now)` for a finite target while the value stays where `toFixed`
and `toString` write plain digits: the text assigned to `el.textContent` and
whether another frame was requested.  `stepFrame` is the function without
these limits. -/
def step (c : Counter) (now : ℚ) : String × Bool :=
  let t := min ((now - c.start) / 1400) 1
  let val := stepVal c now
  (if c.isFloat then toFixed2 val else intToString ⌊val⌋, decide (t < 1))

/-- The number written by `step(now)` into the element. -/
def shownValue (c : Counter) (now : ℚ) : ℚ :=
  if c.isFloat then fixedValue (stepVal c now) else (⌊stepVal c now⌋ : ℚ)

/-- A JavaScript Number as the host hands it to the script: `NaN`, an infinity,
or a finite double given by its exact value. -/
inductive Num where
  | nan
  | infinity (negative : Bool)
  | finite (value : ℚ)
  deriving DecidableEq, Repr

/-- The closure variables `target`, `isFloat`, `start` of one `animateCounter(el)`
call. -/
structure Animation where
  target : Num
  isFloat : Bool
  start : ℚ
  deriving DecidableEq, Repr

/-- The closure of `animateCounter(el)` for the attribute text `lit`:
`parseFloat(lit)`, `lit.includes(".")` and `performance.now()`. -/
def counterClosure (hostParseFloat : String → Num) (lit : String) (now : ℚ) : Animation :=
  { target := hostParseFloat lit, isFloat := lit.data.contains '.', start := now }

/-- Source `animateCounter(el)` up to the first frame request: `dataTarget` is
`el.dataset.target` (`none` when the attribute is missing, and then
`.includes` throws), `now` the value of `performance.now()`. -/
def animateCounter (hostParseFloat : String → Num) (dataTarget : Option String) (now : ℚ) :
    Except JSError Animation :=
  match dataTarget with
  | none => Except.error (JSError.typeError "el.dataset.target is undefined")
  | some lit => Except.ok (counterClosure hostParseFloat lit now)

/-- Host function `x.toFixed(2)` on a finite double of exact value `x`: computed
below `10^21`, the host's `toString` from there on. -/
def toFixed (hostToString : ℚ → String) (x : ℚ) : String :=
  if |x| < 10 ^ 21 then toFixed2 x else hostToString x

/-- Host function `toString()` on an integral double `k`: its plain digits up to
`2^53` in magnitude, the host's `toString` beyond. -/
def numberToString (hostToString : ℚ → String) (k : ℤ) : String :=
  if |k| ≤ 2 ^ 53 then intToString k else hostToString k

/-- The text `isFloat ? val.toFixed(2) : Math.floor(val).toString()` of `step`,
where `val = target * eased`.  `NaN` prints as `NaN`; an infinite target gives
`NaN` when `eased` is `0` and an infinity of the product's sign otherwise,
printed the same in both modes. -/
def stepText (hostToString : ℚ → String) (a : Animation) (eased : ℚ) : String :=
  match a.target with
  | Num.nan => "NaN"
  | Num.infinity negative =>
    if eased = 0 then "NaN"
    else if decide (eased < 0) = negative then "Infinity" else "-Infinity"
  | Num.finite q =>
    let val := q * eased
    if a.isFloat then toFixed hostToString val else numberToString hostToString ⌊val⌋

/-- Source `step(now)`: the text assigned to `el.textContent` and whether another
frame was requested. -/
def stepFrame (hostToString : ℚ → String) (a : Animation) (now : ℚ) : String × Bool :=
  let t := min ((now - a.start) / 1400) 1
  let eased := 1 - (1 - t) ^ 3
  (stepText hostToString a eased, decide (t < 1))

/-- The double nearest to `3.14`, the value of `parseFloat("3.14")`:
`7070651414971679 * 2^(-51)`. -/
def double_3_14 : ℚ := 7070651414971679 / 2251799813685248

/-! ## Confetti -/

/-- The object pushed by the `for` loop of `burstConfetti`, from draw `k` on. -/
def newPiece (rng : ℕ → ℚ) (x y : ℚ) (k : ℕ) : Piece :=
  { x := x, y := y,
    vx := rand (rng k) (-5.2) 5.2,
    vy := rand (rng (k + 1)) (-7.5) (-2.5),
    g := rand (rng (k + 2)) 0.12 0.20,
    life := rand (rng (k + 3)) 50 90,
    size := rand (rng (k + 4)) 2 4,
    hue := index [260, 195, 315] ⌊rand (rng (k + 5)) 0 3⌋ }

/-- The array `pieces` after the `for` loop with `n` iterations. -/
def makePieces (rng : ℕ → ℚ) (x y : ℚ) : ℕ → ℕ → List Piece
  | 0, _ => []
  | n + 1, k => newPiece rng x y k :: makePieces rng x y n (k + 6)

/-- Body of the `for` loop of `tick` for one particle. -/
def tickPiece (q : Piece) : Piece × DrawCmd :=
  let x := q.x + q.vx
  let y := q.y + q.vy
  let life := q.life - 1
  ({ q with x := x, y := y, vy := q.vy + q.g, life := life },
   DrawCmd.fillRect q.hue (max (life / 90) 0) x y q.size q.size)

/-- Source `tick()`: the closure state, the rectangles drawn and whether another
frame was requested. -/
def tick (b : Burst) : Burst × List DrawCmd × Bool :=
  let moved := b.pieces.map tickPiece
  (⟨b.frame + 1, moved.map Prod.fst⟩, moved.map Prod.snd, decide (b.frame + 1 < 90))

/-- The closure of `burstConfetti(x = w * 0.5, y = h * 0.35, n = 120)` when the
`for` loop has filled `pieces` and `frame` is `0`; `none` is an omitted argument. -/
def confettiStart (rng : ℕ → ℚ) (x y : Option ℚ) (n : Option ℕ) (p : Page) : Burst :=
  ⟨0, makePieces rng (x.getD (p.w * 0.5)) (y.getD (p.h * 0.35)) (n.getD 120) p.draws⟩

/-- Source `burstConfetti(x, y, n)` up to the return of its first `tick()`.  The
closure is kept in `bursts` when it asked for another frame. -/
def burstConfetti (rng : ℕ → ℚ) (x y : Option ℚ) (n : Option ℕ) (p : Page) :
    Page × List DrawCmd :=
  let r := tick (confettiStart rng x y n p)
  ({ p with draws := p.draws + 6 * n.getD 120,
            bursts := if r.2.2 then p.bursts ++ [r.1] else p.bursts }, r.2.1)

/-- The host running the `requestAnimationFrame` chain of `tick`: one entry per
executed call, with the frame counter and the rectangles of that call.  `fuel`
bounds the number of frames the host delivers. -/
def runTicks : ℕ → Burst → List (ℕ × List DrawCmd)
  | 0, _ => []
  | fuel + 1, b =>
    let r := tick b
    (r.1.frame, r.2.1) :: (if r.2.2 then runTicks fuel r.1 else [])

/-- Alpha of a drawn rectangle. -/
def alphaOf : DrawCmd → Option ℚ
  | DrawCmd.fillRect _ a _ _ _ _ => some a
  | DrawCmd.arc _ _ _ a _ _ _ => some a
  | _ => none

/-! ## Buttons -/

/-- The click listener of `#btnQED`. -/
def btnQEDClick (rng : ℕ → ℚ) (p : Page) : Page × List DrawCmd :=
  let b := burstConfetti rng none none none { p with warp := 1.3 }
  let t := showToast "QED ✦ Proof delivered!" b.1
  ((setTimeout Callback.resetWarp 700 t.page).1, b.2)

/-- The call `burstConfetti(rand(w*0.2, w*0.8), rand(h*0.2, h*0.5), 160)`. -/
def fireworksBurst (rng : ℕ → ℚ) (p : Page) : Page × List DrawCmd :=
  let x := rand (rng p.draws) (p.w * 0.2) (p.w * 0.8)
  let y := rand (rng (p.draws + 1)) (p.h * 0.2) (p.h * 0.5)
  burstConfetti rng (some x) (some y) (some 160) { p with draws := p.draws + 2 }

/-- The click listener of `#btnFireworks`. -/
def btnFireworksClick (rng : ℕ → ℚ) (p : Page) : Page × List DrawCmd :=
  let b := fireworksBurst rng { p with warp := 2.0 }
  let p1 := (setTimeout Callback.fireworksBurst 260 b.1).1
  let p2 := (setTimeout Callback.fireworksBurst 520 p1).1
  let t := showToast "Stars launched ✨" p2
  ((setTimeout Callback.resetWarp 900 t.page).1, b.2)

/-- The click listener of `#btnSnapshot`. -/
def btnSnapshotClick (p : Page) : Outcome :=
  let p1 := { p with ambientMode := !p.ambientMode }
  if p1.ambientMode then showToast "Ambient mode: calm & minimal" (stopEquations p1)
  else showToast "Ambient mode: off" (startEquations p1)

/-! ## Animation loop -/

/-- The two statements of `loop` that decay `warp`. -/
def warpStep (warp : ℚ) : ℚ :=
  let decayed := warp * 0.92
  if decayed < 0.01 then 0 else decayed

/-- The vertical step of a star in `loop`.  The source comment above the
statement reads `slightly drift stars if ambient mode off`; the statement
itself moves the star in both modes, by a quarter of the step in ambient mode. -/
def drift (ambientMode : Bool) (s : Star) : ℚ :=
  (0.08 + s.z * 0.35) * (if ambientMode then 0.25 else 1)

/-- Body of the `for` loop of `loop` for one star, from draw `k` on: the star and
the next draw. -/
def driftStar (rng : ℕ → ℚ) (w h : ℚ) (ambientMode : Bool) (k : ℕ) (s : Star) :
    Star × ℕ :=
  let y := s.y + drift ambientMode s
  if y > h + 2 then
    ({ s with y := -2,
              x := rand (rng k) 0 w,
              z := rand (rng (k + 1)) 0.1 1,
              r := rand (rng (k + 2)) 0.6 1.8,
              hue := rand (rng (k + 3)) 190 280 }, k + 4)
  else ({ s with y := y }, k)

/-- The `for` loop of `loop` over the stars. -/
def driftStars (rng : ℕ → ℚ) (w h : ℚ) (ambientMode : Bool) :
    ℕ → List Star → List Star × ℕ
  | k, [] => ([], k)
  | k, s :: ss =>
    let r := driftStar rng w h ambientMode k s
    let rest := driftStars rng w h ambientMode r.2 ss
    (r.1 :: rest.1, rest.2)

/-- Source `loop(t)`; it always requests the next frame. -/
def loop (rng : ℕ → ℚ) (sin : ℚ → ℚ) (p : Page) : Page × List DrawCmd :=
  let p1 := { p with warp := warpStep p.warp }
  let d := driftStars rng p1.w p1.h p1.ambientMode p1.draws p1.stars
  drawStars sin { p1 with stars := d.1, draws := d.2 }

/-- The page after `n` frames of `loop` with no other callback in between. -/
def runLoop (rng : ℕ → ℚ) (sin : ℚ → ℚ) : ℕ → Page → Page
  | 0, p => p
  | n + 1, p => (loop rng sin (runLoop rng sin n p)).1

/-- The draws of `Math.random()` lie in `[0, 1)`. -/
def UnitDraws (rng : ℕ → ℚ) : Prop := ∀ i, 0 ≤ rng i ∧ rng i < 1

/-! ## Specification-side definitions and sample pages -/

/-- The character map of the notes wall specification: the five escaped
characters and the identity elsewhere. -/
def escapeImage (c : Char) : String :=
  if c = '&' then "&amp;"
  else if c = '<' then "&lt;"
  else if c = '>' then "&gt;"
  else if c = Char.ofNat 34 then "&quot;"
  else if c = Char.ofNat 39 then "&#039;"
  else String.singleton c

/-- The timer registered by `setInterval(spawnEquation, 650)` under handle `hd`. -/
def spawnInterval (hd : ℕ) : Timer := ⟨hd, 650, true, Callback.spawnEquation⟩

/-- The ten one-shot timers of the initial burst, handles from `hd` on. -/
def initialBurst (hd : ℕ) : List Timer :=
  (List.range 10).map fun i => ⟨hd + i, (i : ℚ) * 80, false, Callback.spawnEquation⟩

/-- The bounds kept by every star: depth in `[0.1, 1]`, height at most `h + 2`. -/
def StarOk (h : ℚ) (s : Star) : Prop := 0.1 ≤ s.z ∧ s.z ≤ 1 ∧ s.y ≤ h + 2

/-- Hue, centre and radius of a drawn disc. -/
def discOf : DrawCmd → Option (ℚ × ℚ × ℚ × ℚ)
  | DrawCmd.arc hue _ _ _ x y radius => some (hue, x, y, radius)
  | _ => none

/-- A 900 by 600 page with every element present, an empty layer and note
stream, and a blank note input. -/
def demoPage : Page :=
  { w := 900, h := 600, stars := [], warp := 0, ambientMode := false,
    eqLayer := some [], eqTimer := none, twEl := none, idx := 0,
    toast := some ⟨"", false⟩, toastTimer := none, noteForm := true,
    noteInput := some " \t ", noteStream := some [], timers := [],
    nextHandle := 1, nextId := 0, draws := 0, bursts := [] }

/-- The page of a document that has the note form but no equation layer, toast,
note input or note stream. -/
def barePage : Page :=
  { demoPage with eqLayer := none, toast := none, noteInput := none, noteStream := none }

/-- A page with a single star whose phase is `0`. -/
def starPage : Page := { demoPage with stars := [⟨450, 300, 1 / 2, 1, 0, 200⟩] }

/-- A constant source of draws. -/
def halfDraws : ℕ → ℚ := fun _ => 1 / 2

/-- A stand-in for `Math.sin` in closed examples. -/
def flatSin : ℚ → ℚ := fun _ => 0

/-! ## Strings -/

theorem foldl_append_data (l : List String) (acc : String) :
    (l.foldl (fun r s => r ++ s) acc).data = acc.data ++ (l.map String.data).flatten := by
  induction l generalizing acc with
  | nil => simp
  | cons s l ih => simp [ih, String.data_append]

theorem join_data (l : List String) : (String.join l).data = (l.map String.data).flatten := by
  simp [String.join, foldl_append_data]

theorem replaceClass_escape (cs : List Char) :
    replaceClass escapeClass escapeTable cs = (cs.map fun c => (escapeImage c).data).flatten := by
  induction cs with
  | nil => rfl
  | cons c cs ih =>
    have hc : (if escapeClass c then ((escapeTable c).getD "undefined").data else [c])
        = (escapeImage c).data := by
      unfold escapeClass escapeTable escapeImage
      by_cases h1 : c = '&'
      · simp [h1]
      by_cases h2 : c = '<'
      · simp [h2]
      by_cases h3 : c = '>'
      · simp [h3]
      by_cases h4 : c = Char.ofNat 34
      · simp [h4]
      by_cases h5 : c = Char.ofNat 39
      · simp [h5]
      simp [h1, h2, h3, h4, h5, String.singleton]
    simp only [replaceClass, hc, ih, List.map_cons, List.flatten_cons]

theorem escapeHTML_eq_join (s : String) :
    escapeHTML s = String.join (s.data.map escapeImage) := by
  apply String.ext
  rw [join_data, List.map_map]
  exact replaceClass_escape s.data

theorem trim_blank (v : String) (h : ∀ c ∈ v.data, isTrimmable c = true) :
    (trim v).data = [] := by
  have : v.data.dropWhile isTrimmable = [] := by
    rw [List.dropWhile_eq_nil_iff]; exact h
  simp [trim, this]

/-! ## Notes wall -/

theorem floatMessage_noteStream (rng : ℕ → ℚ) (text : String) (p : Page) :
    (floatMessage rng text p).page.noteStream = p.noteStream := by
  unfold floatMessage
  cases h : p.eqLayer <;> simp [h, setTimeout]

theorem addNote_card (rng : ℕ → ℚ) (stamp s : String) (p : Page) (cards : List Card)
    (h : p.noteStream = some cards) :
    (addNote rng stamp s p).page.noteStream
      = some (⟨"note", escapeHTML s, stamp ++ " • logged"⟩ :: cards) := by
  simp [addNote, h, floatMessage_noteStream]

/-- C1: `escapeHTML(s)` is the in-order concatenation of the images of the
characters of `s` under the map sending the ampersand, the two angle brackets,
the double and the single quote to their entities and every other character to
itself; `escapeHTML("<script>")` is `&lt;script&gt;`, and that is the text
`addNote` places in the card it prepends to an existing note stream. -/
theorem escapeHTML_charwise (s : String) (rng : ℕ → ℚ) (stamp : String) (p : Page)
    (cards : List Card) :
    escapeHTML s = String.join (s.data.map escapeImage) ∧
    escapeHTML "<script>" = "&lt;script&gt;" ∧
    (addNote rng stamp s { p with noteStream := some cards }).page.noteStream
      = some (⟨"note", String.join (s.data.map escapeImage), stamp ++ " • logged"⟩ :: cards) ∧
    (addNote rng stamp "<script>" { p with noteStream := some cards }).page.noteStream
      = some (⟨"note", "&lt;script&gt;", stamp ++ " • logged"⟩ :: cards) := by
  have hs : escapeHTML "<script>" = "&lt;script&gt;" := by decide
  refine ⟨escapeHTML_eq_join s, hs, ?_, ?_⟩
  · rw [addNote_card rng stamp s _ cards rfl, escapeHTML_eq_join]
  · rw [addNote_card rng stamp "<script>" _ cards rfl, hs]

/-- C2: when the value of the note input is empty or consists only of characters
that `trim` removes, the submit listener returns the page exactly as it found it
(same notes, same floating elements, same input value, same toast and timers)
and throws nothing; it only marks the event as handled. -/
theorem noteSubmit_blank (rng : ℕ → ℚ) (stamp : String) (e : SubmitEvent) (p : Page)
    (v : String) (hv : p.noteInput = some v) (hws : ∀ c ∈ v.data, isTrimmable c = true) :
    noteSubmit rng stamp e p = (⟨p, none⟩, ⟨true⟩) ∧
    (submitNoteForm rng stamp e p).1 = ⟨p, none⟩ := by
  have h : noteSubmit rng stamp e p = (⟨p, none⟩, ⟨true⟩) := by
    simp [noteSubmit, hv, trim_blank v hws]
  refine ⟨h, ?_⟩
  unfold submitNoteForm
  cases p.noteForm <;> simp [h]

theorem noteSubmit_blank_witness :
    noteSubmit halfDraws "12:00" ⟨false⟩ demoPage = (⟨demoPage, none⟩, ⟨true⟩) ∧
    (submitNoteForm halfDraws "12:00" ⟨false⟩ demoPage).1 = ⟨demoPage, none⟩ :=
  noteSubmit_blank halfDraws "12:00" ⟨false⟩ demoPage " \t " rfl (by decide)

/-- C9 at the failing inputs: without the equation layer `spawnEquation`,
`floatMessage` and `addNote` end in a `TypeError`, and without the note input
the submit listener of an existing form does. -/
theorem missing_element_throws :
    (spawnEquation halfDraws barePage).thrown = some (JSError.typeError "eqLayer is null") ∧
    (floatMessage halfDraws "hi" barePage).thrown = some (JSError.typeError "eqLayer is null") ∧
    (addNote halfDraws "12:00" "hi" { barePage with noteStream := some [] }).thrown
      = some (JSError.typeError "eqLayer is null") ∧
    (submitNoteForm halfDraws "12:00" ⟨false⟩ barePage).1.thrown
      = some (JSError.typeError "noteInput is null") := by
  refine ⟨?_, ?_, ?_, ?_⟩
  · have h : ¬ ((0.7 : ℚ) < 2⁻¹) := by norm_num
    simp [spawnEquation, barePage, demoPage, halfDraws, h]
  · simp [floatMessage, barePage, demoPage]
  · simp [addNote, floatMessage, barePage, demoPage]
  · simp [submitNoteForm, noteSubmit, barePage, demoPage]

theorem showToast_never_throws (msg : String) (p : Page) : (showToast msg p).thrown = none := by
  unfold showToast
  cases p.toast <;> rfl

theorem typeLoop_never_throws (p : Page) : (typeLoop p).1.thrown = none := by
  unfold typeLoop
  cases p.twEl <;> rfl

theorem showToast_absent (msg : String) (p : Page) (h : p.toast = none) :
    showToast msg p = ⟨p, none⟩ := by
  simp [showToast, h]

theorem addNote_absent (rng : ℕ → ℚ) (stamp text : String) (p : Page)
    (h : p.noteStream = none) : addNote rng stamp text p = ⟨p, none⟩ := by
  simp [addNote, h]

theorem floatMessage_absent (rng : ℕ → ℚ) (text : String) (p : Page) (h : p.eqLayer = none) :
    (floatMessage rng text p).thrown = some (JSError.typeError "eqLayer is null") := by
  simp [floatMessage, h]

theorem spawnEquation_absent (rng : ℕ → ℚ) (p : Page) (h : p.eqLayer = none) :
    (spawnEquation rng p).thrown ≠ none := by
  unfold spawnEquation
  by_cases hc : rng (p.draws + 1) > 0.7 ∧
      index equations ⌊rng p.draws * (equations.length : ℚ)⌋ = none
  · simp [hc]
  · simp [hc, h]

/-! ## Equation timers -/

theorem burstLoop_eqTimer (n i : ℕ) (p : Page) :
    (burstLoop n i p).eqTimer = p.eqTimer := by
  induction n generalizing i p with
  | zero => rfl
  | succ n ih => simp [burstLoop, ih, setTimeout]

theorem burstLoop_nextHandle (n i : ℕ) (p : Page) :
    (burstLoop n i p).nextHandle = p.nextHandle + n := by
  induction n generalizing i p with
  | zero => rfl
  | succ n ih => simp [burstLoop, ih, setTimeout]; omega

theorem burstLoop_timers (n i : ℕ) (p : Page) :
    (burstLoop n i p).timers = p.timers ++
      (List.range n).map fun j => ⟨p.nextHandle + j, ((i + j : ℕ) : ℚ) * 80, false, Callback.spawnEquation⟩ := by
  induction n generalizing i p with
  | zero => simp [burstLoop]
  | succ n ih =>
    simp only [burstLoop, ih, setTimeout, List.range_succ_eq_map, List.map_cons, List.map_map,
      List.append_assoc, List.singleton_append]
    congr 2
    simp only [List.map_inj_left, Function.comp, Timer.mk.injEq, and_true]
    intro a _
    constructor
    · omega
    · push_cast; ring

theorem startEquations_timers (p : Page) (hnull : truthy p.eqTimer = false) :
    (startEquations p).timers
      = p.timers ++ spawnInterval p.nextHandle :: initialBurst (p.nextHandle + 1) ∧
    (startEquations p).eqTimer = some p.nextHandle ∧
    (startEquations p).nextHandle = p.nextHandle + 11 := by
  simp [startEquations, hnull, burstLoop_timers, burstLoop_eqTimer, burstLoop_nextHandle,
    setInterval, spawnInterval, initialBurst]


theorem startEquations_running (p : Page) (h : truthy p.eqTimer = true) :
    startEquations p = p := by
  simp [startEquations, h]

theorem stop_after_start_timers (p : Page) (hnull : p.eqTimer = none)
    (hfresh : ∀ t ∈ p.timers, t.handle < p.nextHandle) :
    (stopEquations (startEquations p)).timers = p.timers ++ initialBurst (p.nextHandle + 1) := by
  have ht : truthy p.eqTimer = false := by simp [hnull, truthy]
  obtain ⟨h1, h2, _⟩ := startEquations_timers p ht
  have hkeep : p.timers.filter (fun t => t.handle != p.nextHandle) = p.timers := by
    rw [List.filter_eq_self]
    intro t ht
    have := hfresh t ht
    simp; omega
  have hburst : (initialBurst (p.nextHandle + 1)).filter (fun t => t.handle != p.nextHandle)
      = initialBurst (p.nextHandle + 1) := by
    rw [List.filter_eq_self]
    intro t ht
    simp only [initialBurst, List.mem_map, List.mem_range] at ht
    obtain ⟨i, _, rfl⟩ := ht
    simp; omega
  simp only [stopEquations, clearTimer, h1, h2, Option.getD_some, List.filter_append,
    List.filter_cons, hkeep, hburst, spawnInterval]
  simp

/-- C8: from a page whose `eqTimer` is `null`, with a non-zero next handle that no
active timer uses, a second `startEquations()` changes nothing: the page holds
the one 650 ms interval and the ten burst timers (delays `0, 80, ..., 720`) that
the first call registered.  `stopEquations()` then removes the interval and sets
`eqTimer` to `null`, and the next `startEquations()` registers one interval and
one burst again. -/
theorem startEquations_idempotent (p : Page) (hnull : p.eqTimer = none)
    (hpos : p.nextHandle ≠ 0) (hfresh : ∀ t ∈ p.timers, t.handle < p.nextHandle) :
    startEquations (startEquations p) = startEquations p ∧
    (startEquations p).eqTimer = some p.nextHandle ∧
    (startEquations p).timers
      = p.timers ++ spawnInterval p.nextHandle :: initialBurst (p.nextHandle + 1) ∧
    (stopEquations (startEquations p)).eqTimer = none ∧
    (stopEquations (startEquations p)).timers
      = p.timers ++ initialBurst (p.nextHandle + 1) ∧
    (startEquations (stopEquations (startEquations p))).eqTimer = some (p.nextHandle + 11) ∧
    (startEquations (stopEquations (startEquations p))).timers
      = (p.timers ++ initialBurst (p.nextHandle + 1))
          ++ spawnInterval (p.nextHandle + 11) :: initialBurst (p.nextHandle + 12) := by
  have ht : truthy p.eqTimer = false := by simp [hnull, truthy]
  obtain ⟨h1, h2, h3⟩ := startEquations_timers p ht
  have hstop : truthy (stopEquations (startEquations p)).eqTimer = false := by
    simp [stopEquations, truthy]
  obtain ⟨k1, k2, _⟩ := startEquations_timers _ hstop
  have hnh : (stopEquations (startEquations p)).nextHandle = p.nextHandle + 11 := by
    simp [stopEquations, clearTimer, h3]
  refine ⟨?_, h2, h1, ?_, stop_after_start_timers p hnull hfresh, ?_, ?_⟩
  · have : truthy (startEquations p).eqTimer = true := by simp [h2, truthy, hpos]
    exact startEquations_running _ this
  · simp [stopEquations]
  · rw [k2, hnh]
  · rw [k1, hnh, stop_after_start_timers p hnull hfresh]

theorem startEquations_idempotent_witness :
    startEquations (startEquations demoPage) = startEquations demoPage ∧
    (startEquations demoPage).eqTimer = some 1 ∧
    (startEquations demoPage).timers = [] ++ spawnInterval 1 :: initialBurst (1 + 1) ∧
    (stopEquations (startEquations demoPage)).eqTimer = none ∧
    (stopEquations (startEquations demoPage)).timers = [] ++ initialBurst (1 + 1) ∧
    (startEquations (stopEquations (startEquations demoPage))).eqTimer = some (1 + 11) ∧
    (startEquations (stopEquations (startEquations demoPage))).timers
      = ([] ++ initialBurst (1 + 1)) ++ spawnInterval (1 + 11) :: initialBurst (1 + 12) :=
  startEquations_idempotent demoPage rfl (by decide) (by simp [demoPage])

/-! ## Warp decay -/


theorem warpStep_eq (w : ℚ) :
    warpStep w = if 0.01 ≤ 0.92 * w then 0.92 * w else 0 := by
  unfold warpStep
  by_cases h : w * 0.92 < 0.01
  · have h2 : ¬ ((0.01 : ℚ) ≤ 0.92 * w) := by linarith
    rw [if_pos h, if_neg h2]
  · have h2 : (0.01 : ℚ) ≤ 0.92 * w := by linarith
    rw [if_neg h, if_pos h2, mul_comm]

theorem warpStep_zero : warpStep 0 = 0 := by
  norm_num [warpStep]

theorem warpStep_nonneg (w : ℚ) (h : 0 ≤ w) : 0 ≤ warpStep w := by
  unfold warpStep
  by_cases hc : w * 0.92 < 0.01
  · simp [hc]
  · simp only [hc, if_false]; positivity

theorem warpStep_le_mul (w : ℚ) (h : 0 ≤ w) : warpStep w ≤ w * 0.92 := by
  unfold warpStep
  by_cases hc : w * 0.92 < 0.01
  · simp only [hc, if_true]; positivity
  · simp [hc]

theorem warpStep_le (w : ℚ) (h : 0 ≤ w) : warpStep w ≤ w := by
  have := warpStep_le_mul w h
  linarith

theorem loop_warp (rng : ℕ → ℚ) (sin : ℚ → ℚ) (p : Page) :
    (loop rng sin p).1.warp = warpStep p.warp := by
  simp [loop, drawStars]

theorem runLoop_warp (rng : ℕ → ℚ) (sin : ℚ → ℚ) (n : ℕ) (p : Page) :
    (runLoop rng sin n p).warp = warpStep^[n] p.warp := by
  induction n with
  | zero => rfl
  | succ n ih => rw [Function.iterate_succ_apply', ← ih, runLoop, loop_warp]

theorem iterate_warp_nonneg (w : ℚ) (h : 0 ≤ w) (n : ℕ) : 0 ≤ warpStep^[n] w := by
  induction n with
  | zero => simpa using h
  | succ n ih => rw [Function.iterate_succ_apply']; exact warpStep_nonneg _ ih

theorem iterate_warp_le_pow (w : ℚ) (h : 0 ≤ w) (n : ℕ) : warpStep^[n] w ≤ w * 0.92 ^ n := by
  induction n with
  | zero => simp
  | succ n ih =>
    rw [Function.iterate_succ_apply']
    have h1 := warpStep_le_mul _ (iterate_warp_nonneg w h n)
    have : warpStep^[n] w * 0.92 ≤ w * 0.92 ^ n * 0.92 := by
      apply mul_le_mul_of_nonneg_right ih; norm_num
    calc warpStep (warpStep^[n] w) ≤ warpStep^[n] w * 0.92 := h1
      _ ≤ w * 0.92 ^ n * 0.92 := this
      _ = w * 0.92 ^ (n + 1) := by ring

theorem iterate_warp_zero (n : ℕ) : warpStep^[n] 0 = 0 := by
  induction n with
  | zero => rfl
  | succ n ih => rw [Function.iterate_succ_apply', ih, warpStep_zero]

theorem iterate_warp_stays_zero (w : ℚ) (N n : ℕ) (hN : warpStep^[N] w = 0) (hn : N ≤ n) :
    warpStep^[n] w = 0 := by
  obtain ⟨k, rfl⟩ := Nat.exists_eq_add_of_le hn
  rw [Nat.add_comm, Function.iterate_add_apply, hN, iterate_warp_zero]

theorem iterate_warp_closed (w : ℚ) (h : 0 ≤ w) (n : ℕ) (hn : 0.01 ≤ w * 0.92 ^ n) :
    warpStep^[n] w = w * 0.92 ^ n := by
  induction n with
  | zero => simp
  | succ n ih =>
    have hstep : w * 0.92 ^ (n + 1) ≤ w * 0.92 ^ n := by
      have : (0:ℚ) ≤ w * 0.92 ^ n := by positivity
      rw [pow_succ]; nlinarith
    rw [Function.iterate_succ_apply', ih (le_trans hn hstep), warpStep_eq]
    have : (0.01 : ℚ) ≤ 0.92 * (w * 0.92 ^ n) := by rw [pow_succ] at hn; linarith
    simp only [this, if_true]; ring

theorem iterate_warp_eventually (w : ℚ) (h : 0 ≤ w) : ∃ N, ∀ n, N ≤ n → warpStep^[n] w = 0 := by
  obtain ⟨N, hN⟩ : ∃ N : ℕ, (0.92 : ℚ) ^ N < 0.01 / (w + 1) :=
    exists_pow_lt_of_lt_one (by positivity) (by norm_num)
  have hsmall : w * 0.92 ^ N < 0.01 := by
    have h1 : w * 0.92 ^ N ≤ w * (0.01 / (w + 1)) := mul_le_mul_of_nonneg_left hN.le h
    have h2 : w * (0.01 / (w + 1)) < 0.01 := by
      rw [mul_div_assoc', div_lt_iff₀ (by positivity)]
      nlinarith
    linarith
  refine ⟨N + 1, fun n hn => iterate_warp_stays_zero w (N + 1) n ?_ hn⟩
  rw [Function.iterate_succ_apply', warpStep_eq]
  have h3 := iterate_warp_le_pow w h N
  have : ¬ ((0.01 : ℚ) ≤ 0.92 * warpStep^[N] w) := by
    have := iterate_warp_nonneg w h N
    intro hc; linarith
  simp [this]

theorem iterate_warp_first_zero (w : ℚ) (h : 0 ≤ w) (N : ℕ)
    (hlast : 0.01 ≤ w * 0.92 ^ N) (hnext : w * 0.92 ^ (N + 1) < 0.01) (n : ℕ) :
    warpStep^[n] w = 0 ↔ N + 1 ≤ n := by
  constructor
  · intro hz
    by_contra hlt
    have hle : n ≤ N := by omega
    have hmono : w * 0.92 ^ N ≤ w * 0.92 ^ n := by
      apply mul_le_mul_of_nonneg_left _ h
      exact pow_le_pow_of_le_one (by norm_num) (by norm_num) hle
    have := iterate_warp_closed w h n (le_trans hlast hmono)
    rw [hz] at this
    linarith
  · intro hn
    apply iterate_warp_stays_zero w (N + 1) n _ hn
    rw [Function.iterate_succ_apply', iterate_warp_closed w h N hlast, warpStep_eq]
    have : ¬ ((0.01 : ℚ) ≤ 0.92 * (w * 0.92 ^ N)) := by
      rw [pow_succ] at hnext; intro hc; linarith
    simp [this]

theorem fireworks_warp (rng : ℕ → ℚ) (p : Page) : (btnFireworksClick rng p).1.warp = 2.0 := by
  simp [btnFireworksClick, fireworksBurst, burstConfetti, setTimeout, showToast]
  cases p.toast <;> simp [clearTimer]

theorem qed_warp (rng : ℕ → ℚ) (p : Page) : (btnQEDClick rng p).1.warp = 1.3 := by
  simp [btnQEDClick, burstConfetti, setTimeout, showToast]
  cases p.toast <;> simp [clearTimer]

/-- C7: one frame of `loop` maps `warp` to `0.92 * warp` when that product is at
least `0.01` and to `0` otherwise.  From a non-negative `warp`, over frames of
`loop` alone, the value stays non-negative, never increases, and is `0` from
some frame on; after the fireworks click (`warp = 2.0`) it is `0` exactly from
frame 64 on, after the QED click (`warp = 1.3`) exactly from frame 59 on. -/
theorem warp_decay (rng : ℕ → ℚ) (sin : ℚ → ℚ) (p : Page) (h : 0 ≤ p.warp) :
    (loop rng sin p).1.warp = (if 0.01 ≤ 0.92 * p.warp then 0.92 * p.warp else 0) ∧
    (∀ n, 0 ≤ (runLoop rng sin n p).warp) ∧
    (∀ n, (runLoop rng sin (n + 1) p).warp ≤ (runLoop rng sin n p).warp) ∧
    (∃ N, ∀ n, N ≤ n → (runLoop rng sin n p).warp = 0) ∧
    (∀ n, (runLoop rng sin n (btnFireworksClick rng p).1).warp = 0 ↔ 64 ≤ n) ∧
    (∀ n, (runLoop rng sin n (btnQEDClick rng p).1).warp = 0 ↔ 59 ≤ n) := by
  refine ⟨?_, ?_, ?_, ?_, ?_, ?_⟩
  · rw [loop_warp, warpStep_eq]
  · intro n; rw [runLoop_warp]; exact iterate_warp_nonneg _ h n
  · intro n
    rw [runLoop_warp, runLoop_warp, Function.iterate_succ_apply']
    exact warpStep_le _ (iterate_warp_nonneg _ h n)
  · obtain ⟨N, hN⟩ := iterate_warp_eventually _ h
    exact ⟨N, fun n hn => by rw [runLoop_warp]; exact hN n hn⟩
  · intro n
    rw [runLoop_warp, fireworks_warp]
    exact iterate_warp_first_zero 2.0 (by norm_num) 63 (by norm_num) (by norm_num) n
  · intro n
    rw [runLoop_warp, qed_warp]
    exact iterate_warp_first_zero 1.3 (by norm_num) 58 (by norm_num) (by norm_num) n


theorem warp_decay_witness :
    (runLoop halfDraws flatSin 63 (btnFireworksClick halfDraws demoPage).1).warp ≠ 0 ∧
    (runLoop halfDraws flatSin 64 (btnFireworksClick halfDraws demoPage).1).warp = 0 ∧
    (runLoop halfDraws flatSin 58 (btnQEDClick halfDraws demoPage).1).warp ≠ 0 ∧
    (runLoop halfDraws flatSin 59 (btnQEDClick halfDraws demoPage).1).warp = 0 :=
  have h := warp_decay halfDraws flatSin demoPage (le_refl 0)
  ⟨fun hz => absurd ((h.2.2.2.2.1 63).mp hz) (by decide), (h.2.2.2.2.1 64).mpr (le_refl 64),
   fun hz => absurd ((h.2.2.2.2.2 58).mp hz) (by decide), (h.2.2.2.2.2 59).mpr (le_refl 59)⟩

/-! ## Star field -/

theorem rand_bounds (u lo hi : ℚ) (h0 : 0 ≤ u) (h1 : u < 1) (hle : lo ≤ hi) :
    lo ≤ rand u lo hi ∧ rand u lo hi ≤ hi := by
  unfold rand
  have hd : 0 ≤ hi - lo := by linarith
  constructor
  · nlinarith [mul_nonneg h0 hd]
  · nlinarith [mul_nonneg (by linarith : (0:ℚ) ≤ 1 - u) hd]

theorem newStar_ok (rng : ℕ → ℚ) (hr : UnitDraws rng) (w h : ℚ) (hh : 0 ≤ h) (k : ℕ) :
    StarOk h (newStar rng w h k) := by
  have hz := rand_bounds (rng (k + 2)) 0.1 1 (hr _).1 (hr _).2 (by norm_num)
  have hy := rand_bounds (rng (k + 1)) 0 h (hr _).1 (hr _).2 hh
  exact ⟨hz.1, hz.2, by simp only [newStar]; linarith [hy.2]⟩

theorem makeStars_ok (rng : ℕ → ℚ) (hr : UnitDraws rng) (w h : ℚ) (hh : 0 ≤ h) (n k : ℕ) :
    ∀ s ∈ makeStars rng w h n k, StarOk h s := by
  induction n generalizing k with
  | zero => simp [makeStars]
  | succ n ih =>
    intro s hs
    simp only [makeStars, List.mem_cons] at hs
    rcases hs with rfl | hs
    · exact newStar_ok rng hr w h hh k
    · exact ih _ s hs

theorem driftStar_ok (rng : ℕ → ℚ) (hr : UnitDraws rng) (w h : ℚ) (hh : 0 ≤ h) (amb : Bool)
    (k : ℕ) (s : Star) (hs : 0.1 ≤ s.z ∧ s.z ≤ 1) :
    StarOk h (driftStar rng w h amb k s).1 := by
  unfold driftStar
  by_cases hc : s.y + drift amb s > h + 2
  · have hz := rand_bounds (rng (k + 1)) 0.1 1 (hr _).1 (hr _).2 (by norm_num)
    simp only [hc, if_true]
    exact ⟨hz.1, hz.2, by simp only; linarith⟩
  · simp only [hc, if_false]
    exact ⟨hs.1, hs.2, by simp only; linarith⟩

theorem driftStar_wrap (rng : ℕ → ℚ) (w h : ℚ) (amb : Bool) (k : ℕ) (s : Star)
    (hc : s.y + drift amb s > h + 2) : (driftStar rng w h amb k s).1.y = -2 := by
  simp [driftStar, hc]

theorem driftStar_wrap_example :
    (driftStar halfDraws 900 600 false 0 ⟨450, 602, 1 / 2, 1, 0, 200⟩).1
      = ⟨450, -2, 11 / 20, 6 / 5, 0, 235⟩ := by
  have hc : (602 : ℚ) + drift false ⟨450, 602, 1 / 2, 1, 0, 200⟩ > 600 + 2 := by
    norm_num [drift]
  simp only [driftStar, hc, if_true, halfDraws, rand]
  norm_num

theorem driftStars_ok (rng : ℕ → ℚ) (hr : UnitDraws rng) (w h : ℚ) (hh : 0 ≤ h) (amb : Bool)
    (ss : List Star) (k : ℕ) (hs : ∀ s ∈ ss, 0.1 ≤ s.z ∧ s.z ≤ 1) :
    ∀ s ∈ (driftStars rng w h amb k ss).1, StarOk h s := by
  induction ss generalizing k with
  | nil => simp [driftStars]
  | cons a ss ih =>
    intro s hmem
    simp only [driftStars, List.mem_cons] at hmem
    rcases hmem with rfl | hmem
    · exact driftStar_ok rng hr w h hh amb k a (hs a (List.mem_cons_self _ _))
    · exact ih _ (fun t ht => hs t (List.mem_cons_of_mem _ ht)) s hmem

theorem driftStars_wrap (rng : ℕ → ℚ) (w h : ℚ) (amb : Bool) (ss : List Star) (k : ℕ) :
    List.Forall₂ (fun s s' => s.y + drift amb s > h + 2 → s'.y = -2)
      ss (driftStars rng w h amb k ss).1 := by
  induction ss generalizing k with
  | nil => simp [driftStars]
  | cons a ss ih =>
    simp only [driftStars]
    exact List.Forall₂.cons (driftStar_wrap rng w h amb k a) (ih _)

theorem loop_stars (rng : ℕ → ℚ) (sin : ℚ → ℚ) (p : Page) :
    (loop rng sin p).1.stars
      = (driftStars rng p.w p.h p.ambientMode p.draws p.stars).1.map
          fun s => { s with tw := s.tw + (0.02 + s.z * 0.03) } := by
  simp [loop, drawStars, List.map_map, Function.comp, drawStar]

theorem loop_h (rng : ℕ → ℚ) (sin : ℚ → ℚ) (p : Page) : (loop rng sin p).1.h = p.h := by
  simp [loop, drawStars]

theorem runLoop_h (rng : ℕ → ℚ) (sin : ℚ → ℚ) (n : ℕ) (p : Page) :
    (runLoop rng sin n p).h = p.h := by
  induction n with
  | zero => rfl
  | succ n ih => rw [runLoop, loop_h, ih]

theorem loop_ok (rng : ℕ → ℚ) (hr : UnitDraws rng) (sin : ℚ → ℚ) (p : Page) (hh : 0 ≤ p.h)
    (hs : ∀ s ∈ p.stars, StarOk p.h s) : ∀ s ∈ (loop rng sin p).1.stars, StarOk p.h s := by
  intro s hmem
  rw [loop_stars, List.mem_map] at hmem
  obtain ⟨t, ht, rfl⟩ := hmem
  exact driftStars_ok rng hr p.w p.h hh p.ambientMode p.stars p.draws
    (fun u hu => ⟨(hs u hu).1, (hs u hu).2.1⟩) t ht

theorem loop_wrap (rng : ℕ → ℚ) (sin : ℚ → ℚ) (p : Page) :
    List.Forall₂ (fun s s' => s.y + drift p.ambientMode s > p.h + 2 → s'.y = -2)
      p.stars (loop rng sin p).1.stars := by
  rw [loop_stars, List.forall₂_map_right_iff]
  exact driftStars_wrap rng p.w p.h p.ambientMode p.stars p.draws

theorem runLoop_ok (rng : ℕ → ℚ) (hr : UnitDraws rng) (sin : ℚ → ℚ) (p : Page) (hh : 0 ≤ p.h)
    (hs : ∀ s ∈ p.stars, StarOk p.h s) (n : ℕ) :
    ∀ s ∈ (runLoop rng sin n p).stars, StarOk p.h s := by
  induction n with
  | zero => exact hs
  | succ n ih =>
    have := loop_ok rng hr sin (runLoop rng sin n p) (by rw [runLoop_h]; exact hh)
      (by rw [runLoop_h]; exact ih)
    rw [runLoop_h] at this
    exact this

theorem createStars_h (rng : ℕ → ℚ) (count : Option ℕ) (p : Page) :
    (createStars rng count p).h = p.h := rfl

/-- C3: for stars made by `createStars` on a page of height `h ≥ 0`, with every
draw of `Math.random()` in `[0, 1)`, after each frame of `loop` every star has
`0.1 ≤ z ≤ 1` and `y ≤ h + 2`; and a star whose advanced `y` exceeds `h + 2` in a
frame has `y = -2` when the frame ends. -/
theorem star_bounds (rng : ℕ → ℚ) (sin : ℚ → ℚ) (count : Option ℕ) (p : Page) (n : ℕ)
    (hr : UnitDraws rng) (hh : 0 ≤ p.h) :
    (∀ s ∈ (runLoop rng sin (n + 1) (createStars rng count p)).stars,
        0.1 ≤ s.z ∧ s.z ≤ 1 ∧ s.y ≤ p.h + 2) ∧
    List.Forall₂
      (fun s s' =>
        s.y + drift (runLoop rng sin n (createStars rng count p)).ambientMode s > p.h + 2 →
          s'.y = -2)
      (runLoop rng sin n (createStars rng count p)).stars
      (runLoop rng sin (n + 1) (createStars rng count p)).stars := by
  constructor
  · exact runLoop_ok rng hr sin (createStars rng count p) hh
      (makeStars_ok rng hr _ _ hh _ _) (n + 1)
  · have := loop_wrap rng sin (runLoop rng sin n (createStars rng count p))
    rw [runLoop_h, createStars_h] at this
    exact this


theorem halfDraws_unit : UnitDraws halfDraws := fun _ => by
  constructor <;> norm_num [halfDraws]

theorem star_bounds_witness :
    (∀ s ∈ (runLoop halfDraws flatSin (3 + 1) (createStars halfDraws (some 2) demoPage)).stars,
        0.1 ≤ s.z ∧ s.z ≤ 1 ∧ s.y ≤ demoPage.h + 2) ∧
    List.Forall₂
      (fun s s' =>
        s.y + drift (runLoop halfDraws flatSin 3
            (createStars halfDraws (some 2) demoPage)).ambientMode s > demoPage.h + 2 →
          s'.y = -2)
      (runLoop halfDraws flatSin 3 (createStars halfDraws (some 2) demoPage)).stars
      (runLoop halfDraws flatSin (3 + 1) (createStars halfDraws (some 2) demoPage)).stars :=
  star_bounds halfDraws flatSin (some 2) demoPage 3 halfDraws_unit (by norm_num [demoPage])

/-- C10 fails on the one-star page: `drawStars` moves the phase `tw` of the star
from `0` to `7/200`, so the stars after the call differ from those before. -/
theorem drawStars_advances_phase :
    (drawStars flatSin starPage).1.stars ≠ starPage.stars ∧
    (drawStars flatSin starPage).1.stars.map Star.tw = [7 / 200] ∧
    starPage.stars.map Star.tw = [0] := by
  refine ⟨?_, ?_, ?_⟩
  · simp [drawStars, drawStar, starPage, demoPage]; norm_num
  · simp [drawStars, drawStar, starPage, demoPage]; norm_num
  · simp [starPage]

/-- C10 as amended: `drawStars` changes nothing on the page but the phase of each
star, which it advances by `0.02 + 0.03 * z`; drawing a star again right after
gives its disc the same hue, centre and radius. -/
theorem drawStars_effect (sin : ℚ → ℚ) (p : Page) (s : Star) :
    (drawStars sin p).1
      = { p with stars := p.stars.map fun s => { s with tw := s.tw + (0.02 + s.z * 0.03) } } ∧
    ((drawStar sin p.w p.h p.warp (drawStar sin p.w p.h p.warp s).1).2.head?).bind discOf
      = ((drawStar sin p.w p.h p.warp s).2.head?).bind discOf := by
  constructor
  · simp [drawStars, drawStar, List.map_map, Function.comp]
  · simp [drawStar, discOf]


/-! ## Counters -/

theorem digitChar_spec (d : ℕ) (h : d < 10) :
    (Nat.digitChar d).isDigit = true ∧ (Nat.digitChar d).toNat - 48 = d := by
  interval_cases d <;> decide

theorem digitsValue_foldl (ds : List Char) (acc : ℕ) :
    ds.foldl (fun a c => 10 * a + (c.toNat - 48)) acc = acc * 10 ^ ds.length + digitsValue ds := by
  induction ds generalizing acc with
  | nil => simp [digitsValue]
  | cons c cs ih =>
    simp only [digitsValue, List.foldl_cons, List.length_cons] at ih ⊢
    rw [ih (10 * acc + (c.toNat - 48)), ih (10 * 0 + (c.toNat - 48))]
    ring

theorem digitsValue_cons (c : Char) (cs : List Char) :
    digitsValue (c :: cs) = (c.toNat - 48) * 10 ^ cs.length + digitsValue cs := by
  have := digitsValue_foldl cs (10 * 0 + (c.toNat - 48))
  simp only [digitsValue, List.foldl_cons] at this ⊢
  rw [this]; ring

theorem digitsValue_append (a b : List Char) :
    digitsValue (a ++ b) = digitsValue a * 10 ^ b.length + digitsValue b := by
  induction a with
  | nil => simp [digitsValue]
  | cons c cs ih =>
    rw [List.cons_append, digitsValue_cons, digitsValue_cons, ih, List.length_append]
    ring

theorem toDigitsCore_spec (fuel : ℕ) : ∀ (n : ℕ) (acc : List Char), n < fuel →
    (∀ c ∈ acc, c.isDigit = true) →
    (∀ c ∈ Nat.toDigitsCore 10 fuel n acc, c.isDigit = true) ∧
    digitsValue (Nat.toDigitsCore 10 fuel n acc) = n * 10 ^ acc.length + digitsValue acc ∧
    Nat.toDigitsCore 10 fuel n acc ≠ [] := by
  induction fuel with
  | zero => intro n acc h; omega
  | succ f ih =>
    intro n acc h hacc
    have hd := digitChar_spec (n % 10) (Nat.mod_lt _ (by norm_num))
    have hacc2 : ∀ c ∈ Nat.digitChar (n % 10) :: acc, c.isDigit = true := by
      intro c hc
      rcases List.mem_cons.mp hc with rfl | hc
      · exact hd.1
      · exact hacc c hc
    simp only [Nat.toDigitsCore]
    by_cases h0 : n / 10 = 0
    · simp only [h0, if_true]
      refine ⟨hacc2, ?_, by simp⟩
      rw [digitsValue_cons, hd.2]
      have : n % 10 = n := Nat.mod_eq_of_lt (by omega)
      rw [this]
    · simp only [h0, if_false]
      obtain ⟨h1, h2, h3⟩ := ih (n / 10) (Nat.digitChar (n % 10) :: acc) (by omega) hacc2
      refine ⟨h1, ?_, h3⟩
      rw [h2, digitsValue_cons, hd.2, List.length_cons]
      have := Nat.div_add_mod n 10
      calc n / 10 * 10 ^ (acc.length + 1) + (n % 10 * 10 ^ acc.length + digitsValue acc)
          = (10 * (n / 10) + n % 10) * 10 ^ acc.length + digitsValue acc := by ring
        _ = n * 10 ^ acc.length + digitsValue acc := by rw [this]

theorem repr_digits (n : ℕ) :
    (∀ c ∈ (Nat.repr n).data, c.isDigit = true) ∧ digitsValue (Nat.repr n).data = n ∧
    (Nat.repr n).data ≠ [] := by
  have := toDigitsCore_spec (n + 1) n [] (by omega) (by simp)
  simpa [Nat.repr, Nat.toDigits, List.asString, digitsValue] using this

theorem takeWhile_digits (a rest : List Char) (ha : ∀ c ∈ a, c.isDigit = true) :
    (a ++ '.' :: rest).takeWhile Char.isDigit = a ∧
    (a ++ '.' :: rest).dropWhile Char.isDigit = '.' :: rest := by
  induction a with
  | nil =>
    have : Char.isDigit '.' = false := by decide
    simp [List.takeWhile, List.dropWhile, this]
  | cons c cs ih =>
    have hc := ha c (List.mem_cons_self _ _)
    have := ih (fun d hd => ha d (List.mem_cons_of_mem _ hd))
    simp [List.takeWhile, List.dropWhile, hc, this]

theorem takeWhile_all_digits (a : List Char) (ha : ∀ c ∈ a, c.isDigit = true) :
    a.takeWhile Char.isDigit = a ∧ a.dropWhile Char.isDigit = [] := by
  constructor
  · rw [List.takeWhile_eq_self_iff]; exact ha
  · rw [List.dropWhile_eq_nil_iff]; exact ha

theorem digit_not_sign (c : Char) (h : c.isDigit = true) : c ≠ '-' ∧ c ≠ '+' := by
  constructor <;> (rintro rfl; revert h; decide)

theorem splitSign_signed (neg : Bool) (c : Char) (cs : List Char) (hc : c.isDigit = true) :
    splitSign ((if neg then ['-'] else []) ++ c :: cs) = (neg, c :: cs) := by
  obtain ⟨h1, h2⟩ := digit_not_sign c hc
  cases neg
  · simp only [Bool.false_eq_true, if_false, List.nil_append]
    unfold splitSign
    split
    · rename_i heq; exact absurd (List.cons.inj heq).1 h1
    · rename_i heq; exact absurd (List.cons.inj heq).1 h2
    · rfl
  · rfl

theorem parseDecimal_fraction (neg : Bool) (a b : List Char) (ha : ∀ c ∈ a, c.isDigit = true)
    (hne : a ≠ []) (hb : ∀ c ∈ b, c.isDigit = true) :
    parseDecimal (String.mk ((if neg then ['-'] else []) ++ (a ++ '.' :: b)))
      = some (neg, digitsValue (a ++ b), b.length) := by
  obtain ⟨c, cs, rfl⟩ := List.exists_cons_of_ne_nil hne
  have hs := splitSign_signed neg c (cs ++ '.' :: b) (ha c (List.mem_cons_self _ _))
  obtain ⟨ht, hd⟩ := takeWhile_digits (c :: cs) b ha
  simp only [parseDecimal]
  rw [List.cons_append, hs]
  simp only [← List.cons_append, ht, hd]
  have hall : b.all Char.isDigit = true := by simpa using hb
  simp [hall]

theorem parseDecimal_integer (neg : Bool) (a : List Char) (ha : ∀ c ∈ a, c.isDigit = true)
    (hne : a ≠ []) :
    parseDecimal (String.mk ((if neg then ['-'] else []) ++ a)) = some (neg, digitsValue a, 0) := by
  obtain ⟨c, cs, rfl⟩ := List.exists_cons_of_ne_nil hne
  have hs := splitSign_signed neg c cs (ha c (List.mem_cons_self _ _))
  obtain ⟨ht, hd⟩ := takeWhile_all_digits (c :: cs) ha
  simp only [parseDecimal]
  rw [hs]
  simp only [ht, hd]
  simp

theorem digitsValue_zeros (k : ℕ) : digitsValue (List.replicate k '0') = 0 := by
  induction k with
  | zero => rfl
  | succ k ih =>
    have h0 : '0'.toNat - 48 = 0 := by decide
    rw [List.replicate_succ, digitsValue_cons, ih, h0]; simp

theorem fixedString_parts (neg : Bool) (n : ℕ) :
    ∃ a b : List Char,
      (fixedString neg n).data = (if neg then ['-'] else []) ++ (a ++ '.' :: b) ∧
      a ≠ [] ∧ (∀ c ∈ a, c.isDigit = true) ∧ (∀ c ∈ b, c.isDigit = true) ∧
      b.length = 2 ∧ digitsValue (a ++ b) = n := by
  obtain ⟨hdig, hval, _⟩ := repr_digits n
  let m : List Char := if (Nat.repr n).data.length ≤ 2
    then List.replicate (3 - (Nat.repr n).data.length) '0' ++ (Nat.repr n).data
    else (Nat.repr n).data
  have hm_dig : ∀ c ∈ m, c.isDigit = true := by
    intro c hc
    simp only [m] at hc
    split at hc
    · rcases List.mem_append.mp hc with h | h
      · rw [(List.mem_replicate.mp h).2]; decide
      · exact hdig c h
    · exact hdig c hc
  have hm_len : 3 ≤ m.length := by
    simp only [m]
    split
    · simp; omega
    · omega
  have hm_val : digitsValue m = n := by
    simp only [m]
    split
    · rw [digitsValue_append, digitsValue_zeros, hval]; simp
    · exact hval
  refine ⟨m.take (m.length - 2), m.drop (m.length - 2), ?_, ?_, ?_, ?_, ?_, ?_⟩
  · cases neg <;> simp [fixedString, m, String.data_append]
  · intro h
    have := congrArg List.length h
    simp at this
    omega
  · exact fun c hc => hm_dig c (List.mem_of_mem_take hc)
  · exact fun c hc => hm_dig c (List.mem_of_mem_drop hc)
  · simp; omega
  · rw [List.take_append_drop, hm_val]

theorem decimalValue_toFixed2 (x : ℚ) : decimalValue (toFixed2 x) = some (fixedValue x) := by
  obtain ⟨a, b, hdata, hne, ha, hb, hlen, hval⟩ := fixedString_parts (decide (x < 0)) (hundredths x)
  have hparse : parseDecimal (toFixed2 x) = some (decide (x < 0), hundredths x, 2) := by
    have := parseDecimal_fraction (decide (x < 0)) a b ha hne hb
    rw [← hdata, hval, hlen] at this
    exact this
  simp only [decimalValue, hparse, Option.map_some', fixedValue, decide_eq_true_eq]
  norm_num

theorem decimalValue_intToString (k : ℤ) : decimalValue (intToString k) = some (k : ℚ) := by
  have key : ∀ (neg : Bool) (n : ℕ),
      parseDecimal (String.mk ((if neg then ['-'] else []) ++ (Nat.repr n).data))
        = some (neg, n, 0) := by
    intro neg n
    obtain ⟨hdig, hval, hne⟩ := repr_digits n
    rw [parseDecimal_integer neg _ hdig hne, hval]
  unfold intToString
  by_cases hk : k < 0
  · have h := key true k.natAbs
    have hstr : "-" ++ Nat.repr k.natAbs
        = String.mk ((if true then ['-'] else []) ++ (Nat.repr k.natAbs).data) := by
      apply String.ext; simp [String.data_append]
    have hcast : ((k.natAbs : ℕ) : ℚ) = -(k : ℚ) := by
      have h1 : ((k.natAbs : ℕ) : ℤ) = -k := by omega
      rw [← Int.cast_natCast, h1, Int.cast_neg]
    rw [if_pos hk, hstr, decimalValue, h]
    simp [hcast]
  · have h := key false k.toNat
    have hstr : Nat.repr k.toNat
        = String.mk ((if false then ['-'] else []) ++ (Nat.repr k.toNat).data) := by
      apply String.ext; simp
    have hcast : ((k.toNat : ℕ) : ℚ) = (k : ℚ) := by
      have h1 : ((k.toNat : ℕ) : ℤ) = k := by omega
      rw [← Int.cast_natCast, h1]
    rw [if_neg hk, hstr, decimalValue, h]
    simp [hcast]

theorem step_text_value (c : Counter) (now : ℚ) :
    decimalValue (step c now).1 = some (shownValue c now) := by
  unfold step shownValue
  cases c.isFloat
  · simpa using decimalValue_intToString ⌊stepVal c now⌋
  · simpa using decimalValue_toFixed2 (stepVal c now)


theorem step_t_done (c : Counter) (now : ℚ) (hdone : 1400 ≤ now - c.start) :
    min ((now - c.start) / 1400) 1 = 1 := by
  apply min_eq_right
  rw [le_div_iff₀ (by norm_num)]
  linarith

theorem stepVal_done (c : Counter) (now : ℚ) (hdone : 1400 ≤ now - c.start) :
    stepVal c now = c.target := by
  simp [stepVal, step_t_done c now hdone]

theorem step_again (c : Counter) (now : ℚ) :
    (step c now).2 = decide (now - c.start < 1400) := by
  simp only [step]
  congr 1
  rw [min_lt_iff, div_lt_iff₀ (by norm_num)]
  simp

theorem stepFrame_again (hostToString : ℚ → String) (a : Animation) (now : ℚ) :
    (stepFrame hostToString a now).2 = decide (now - a.start < 1400) := by
  simp only [stepFrame]
  congr 1
  rw [min_lt_iff, div_lt_iff₀ (by norm_num)]
  simp

theorem stepFrame_done (hostToString : ℚ → String) (a : Animation) (now : ℚ)
    (hdone : 1400 ≤ now - a.start) :
    (stepFrame hostToString a now).1 = stepText hostToString a 1 := by
  have ht : min ((now - a.start) / 1400) 1 = 1 := by
    apply min_eq_right
    rw [le_div_iff₀ (by norm_num)]
    linarith
  simp [stepFrame, ht]

theorem stepFrame_eq_step (hostToString : ℚ → String) (c : Counter) (now : ℚ)
    (hfix : |stepVal c now| < 10 ^ 21) (hint : |⌊stepVal c now⌋| ≤ 2 ^ 53) :
    stepFrame hostToString ⟨Num.finite c.target, c.isFloat, c.start⟩ now = step c now := by
  simp only [stepFrame, stepText, step, toFixed, numberToString]
  have hv : c.target * (1 - (1 - min ((now - c.start) / 1400) 1) ^ 3) = stepVal c now := rfl
  rw [hv, if_pos hfix, if_pos hint]

theorem hundredths_cast (x : ℚ) : (hundredths x : ℚ) = ((⌊|x| * 100 + 1 / 2⌋ : ℤ) : ℚ) := by
  have h0 : (0 : ℤ) ≤ ⌊|x| * 100 + 1 / 2⌋ := by
    apply Int.floor_nonneg.mpr
    have := abs_nonneg x
    linarith
  unfold hundredths
  rw [← Int.cast_natCast, Int.toNat_of_nonneg h0]

theorem fixedValue_close (x : ℚ) : |fixedValue x - x| ≤ 1 / 200 := by
  have hlo := Int.floor_le (|x| * 100 + 1 / 2)
  have hhi := Int.lt_floor_add_one (|x| * 100 + 1 / 2)
  rw [← hundredths_cast] at hlo hhi
  unfold fixedValue
  rw [abs_le]
  by_cases hx : x < 0
  · rw [abs_of_neg hx] at hlo hhi
    simp only [hx, if_true]
    constructor <;> linarith
  · rw [abs_of_nonneg (not_lt.mp hx)] at hlo hhi
    simp only [hx, if_false]
    constructor <;> linarith

theorem toFixed2_double_3_14 : toFixed2 double_3_14 = "3.14" := by
  have hpos : (0 : ℚ) ≤ double_3_14 := by norm_num [double_3_14]
  have h : hundredths double_3_14 = 314 := by
    unfold hundredths
    have : ⌊|double_3_14| * 100 + 1 / 2⌋ = 314 := by
      rw [Int.floor_eq_iff, abs_of_nonneg hpos]
      constructor <;> norm_num [double_3_14]
    rw [this]; rfl
  have hs : decide (double_3_14 < 0) = false := by
    simp only [decide_eq_false_iff_not, not_lt]; exact hpos
  rw [toFixed2, h, hs]
  decide

/-- C4: in a step whose elapsed time `now - start` is at least 1400 ms the text is
the target itself, as `parseFloat` returned it: written by `toFixed(2)` when the
attribute text has a decimal point (below `10^21` the digits of the target
rounded to hundredths, at most `1/200` away from it), and by `toString` when it
has none and the target is an integer (its plain digits up to `2^53`).  A `NaN`
or infinite target is shown as `NaN`, `Infinity` or `-Infinity`.  That step
requests no frame, while every step with elapsed time below 1400 ms requests
one.  For the attribute `42` the text is `42`, for `3.14` it is `3.14`. -/
theorem counter_final (hostParseFloat : String → Num) (hostToString : ℚ → String)
    (lit : String) (start now : ℚ) (hdone : 1400 ≤ now - start) :
    animateCounter hostParseFloat (some lit) start
      = Except.ok (counterClosure hostParseFloat lit start) ∧
    (stepFrame hostToString (counterClosure hostParseFloat lit start) now).2 = false ∧
    (∀ early : ℚ, early - start < 1400 →
      (stepFrame hostToString (counterClosure hostParseFloat lit start) early).2 = true) ∧
    (∀ q : ℚ, hostParseFloat lit = Num.finite q → lit.data.contains '.' = true →
      (stepFrame hostToString (counterClosure hostParseFloat lit start) now).1
        = toFixed hostToString q ∧
      (|q| < 10 ^ 21 →
        (stepFrame hostToString (counterClosure hostParseFloat lit start) now).1 = toFixed2 q ∧
        decimalValue (toFixed2 q) = some (fixedValue q) ∧ |fixedValue q - q| ≤ 1 / 200)) ∧
    (∀ k : ℤ, hostParseFloat lit = Num.finite k → lit.data.contains '.' = false →
      (stepFrame hostToString (counterClosure hostParseFloat lit start) now).1
        = numberToString hostToString k ∧
      (|k| ≤ 2 ^ 53 →
        (stepFrame hostToString (counterClosure hostParseFloat lit start) now).1 = intToString k ∧
        decimalValue (intToString k) = some (k : ℚ))) ∧
    (hostParseFloat lit = Num.nan →
      (stepFrame hostToString (counterClosure hostParseFloat lit start) now).1 = "NaN") ∧
    (∀ negative : Bool, hostParseFloat lit = Num.infinity negative →
      (stepFrame hostToString (counterClosure hostParseFloat lit start) now).1
        = if negative then "-Infinity" else "Infinity") ∧
    (hostParseFloat "42" = Num.finite 42 →
      (stepFrame hostToString (counterClosure hostParseFloat "42" start) now).1 = "42") ∧
    (hostParseFloat "3.14" = Num.finite double_3_14 →
      (stepFrame hostToString (counterClosure hostParseFloat "3.14" start) now).1 = "3.14") := by
  have hd : ∀ l : String, 1400 ≤ now - (counterClosure hostParseFloat l start).start := fun _ => hdone
  refine ⟨rfl, ?_, ?_, ?_, ?_, ?_, ?_, ?_, ?_⟩
  · rw [stepFrame_again]
    simp only [counterClosure, decide_eq_false_iff_not, not_lt]
    exact hdone
  · intro early he
    rw [stepFrame_again]
    simpa [counterClosure] using he
  · intro q hq hdot
    have h1 : (stepFrame hostToString (counterClosure hostParseFloat lit start) now).1
        = toFixed hostToString q := by
      rw [stepFrame_done _ _ _ (hd lit)]
      simp only [stepText, counterClosure, hq, hdot, mul_one, if_true]
    refine ⟨h1, fun hr => ⟨?_, decimalValue_toFixed2 q, fixedValue_close q⟩⟩
    rw [h1, toFixed, if_pos hr]
  · intro k hk hdot
    have h1 : (stepFrame hostToString (counterClosure hostParseFloat lit start) now).1
        = numberToString hostToString k := by
      rw [stepFrame_done _ _ _ (hd lit)]
      simp only [stepText, counterClosure, hk, hdot, mul_one, Bool.false_eq_true, if_false,
        Int.floor_intCast]
    refine ⟨h1, fun hr => ⟨?_, decimalValue_intToString k⟩⟩
    rw [h1, numberToString, if_pos hr]
  · intro hn
    rw [stepFrame_done _ _ _ (hd lit)]
    simp [stepText, counterClosure, hn]
  · intro negative hi
    rw [stepFrame_done _ _ _ (hd lit)]
    cases negative <;> simp [stepText, counterClosure, hi]
  · intro h42
    have hdot : "42".data.contains '.' = false := by decide
    have hr : |((42 : ℤ))| ≤ 2 ^ 53 := by norm_num
    have hfl : ⌊(42 : ℚ)⌋ = 42 := by
      have : ((42 : ℤ) : ℚ) = 42 := by norm_num
      rw [← this, Int.floor_intCast]
    rw [stepFrame_done _ _ _ (hd "42")]
    simp only [stepText, counterClosure, h42, hdot, mul_one, hfl, numberToString, if_pos hr,
      Bool.false_eq_true, if_false]
    decide
  · intro h314
    have hdot : "3.14".data.contains '.' = true := by decide
    have hr : |double_3_14| < 10 ^ 21 := by
      rw [abs_of_nonneg (by norm_num [double_3_14])]; norm_num [double_3_14]
    rw [stepFrame_done _ _ _ (hd "3.14")]
    simp only [stepText, counterClosure, h314, hdot, mul_one, toFixed, if_pos hr, if_true]
    exact toFixed2_double_3_14

theorem counter_final_witness :
    stepFrame (fun _ => "") (counterClosure (fun _ => Num.finite 42) "42" 0) 1400
      = ("42", false) ∧
    (stepFrame (fun _ => "") (counterClosure (fun _ => Num.finite 42) "42" 0) 700).2 = true ∧
    (stepFrame (fun _ => "")
        (counterClosure (fun _ => Num.finite double_3_14) "3.14" 0) 1400).1 = "3.14" :=
  have h := counter_final (fun _ => Num.finite 42) (fun _ => "") "42" 0 1400 (by norm_num)
  have g := counter_final (fun _ => Num.finite double_3_14) (fun _ => "") "3.14" 0 1400
    (by norm_num)
  ⟨Prod.ext (h.2.2.2.2.2.2.2.1 rfl) h.2.1, h.2.2.1 700 (by norm_num), g.2.2.2.2.2.2.2.2 rfl⟩

theorem stepVal_mono (c : Counter) (now1 now2 : ℚ) (ht : 0 ≤ c.target) (hle : now1 ≤ now2) :
    stepVal c now1 ≤ stepVal c now2 := by
  unfold stepVal
  have h12 : min ((now1 - c.start) / 1400) 1 ≤ min ((now2 - c.start) / 1400) 1 := by
    apply min_le_min_right
    apply div_le_div_of_nonneg_right _ (by norm_num)
    linarith
  have h2 : (0 : ℚ) ≤ 1 - min ((now2 - c.start) / 1400) 1 := by
    have := min_le_right ((now2 - c.start) / 1400) 1
    linarith
  have hpow : (1 - min ((now2 - c.start) / 1400) 1) ^ 3 ≤ (1 - min ((now1 - c.start) / 1400) 1) ^ 3 :=
    pow_le_pow_left₀ h2 (by linarith) 3
  apply mul_le_mul_of_nonneg_left _ ht
  linarith

theorem hundredths_mono (x y : ℚ) (h : |x| ≤ |y|) : hundredths x ≤ hundredths y := by
  unfold hundredths
  apply Int.toNat_le_toNat
  apply Int.floor_le_floor
  linarith

theorem fixedValue_mono (x y : ℚ) (h : x ≤ y) : fixedValue x ≤ fixedValue y := by
  unfold fixedValue
  by_cases hx : x < 0
  · by_cases hy : y < 0
    · have hh : hundredths y ≤ hundredths x :=
        hundredths_mono y x (by rw [abs_of_neg hy, abs_of_neg hx]; linarith)
      have : (hundredths y : ℚ) ≤ hundredths x := by exact_mod_cast hh
      simp only [hx, hy, if_true]
      linarith
    · have h1 : (0 : ℚ) ≤ hundredths x := by positivity
      have h2 : (0 : ℚ) ≤ hundredths y := by positivity
      simp only [hx, hy, if_true, if_false]
      linarith
  · have hy : ¬ y < 0 := by linarith
    have hh : hundredths x ≤ hundredths y :=
      hundredths_mono x y (by rw [abs_of_nonneg (not_lt.mp hx), abs_of_nonneg (not_lt.mp hy)]; exact h)
    have : (hundredths x : ℚ) ≤ hundredths y := by exact_mod_cast hh
    simp only [hx, hy, if_false]
    linarith

/-- C5: for a target `≥ 0` and frame times `now1 ≤ now2`, the number written by
`step(now1)` is at most the one written by `step(now2)`: in integer mode the
floor of `target * (1 - (1 - t)^3)`, in float mode that value rounded to two
decimals, with `t = min((now - start) / 1400, 1)`.  The number written is the
one the displayed text reads back as. -/
theorem counter_monotone (c : Counter) (now1 now2 : ℚ) (ht : 0 ≤ c.target) (hle : now1 ≤ now2) :
    decimalValue (step c now1).1 = some (shownValue c now1) ∧
    decimalValue (step c now2).1 = some (shownValue c now2) ∧
    shownValue c now1 ≤ shownValue c now2 ∧
    ⌊stepVal c now1⌋ ≤ ⌊stepVal c now2⌋ ∧
    fixedValue (stepVal c now1) ≤ fixedValue (stepVal c now2) := by
  have hv := stepVal_mono c now1 now2 ht hle
  have hi : ⌊stepVal c now1⌋ ≤ ⌊stepVal c now2⌋ := Int.floor_le_floor hv
  have hf := fixedValue_mono _ _ hv
  refine ⟨step_text_value c now1, step_text_value c now2, ?_, hi, hf⟩
  unfold shownValue
  cases c.isFloat
  · simpa using hi
  · simpa using hf

theorem counter_monotone_witness :
    shownValue ⟨42, false, 0⟩ 0 ≤ shownValue ⟨42, false, 0⟩ 700 ∧
    ⌊stepVal ⟨42, false, 0⟩ 0⌋ ≤ ⌊stepVal ⟨42, false, 0⟩ 700⌋ ∧
    fixedValue (stepVal ⟨42, false, 0⟩ 0) ≤ fixedValue (stepVal ⟨42, false, 0⟩ 700) :=
  (counter_monotone ⟨42, false, 0⟩ 0 700 (by norm_num) (by norm_num)).2.2

/-! ## Confetti -/

theorem makePieces_life (rng : ℕ → ℚ) (hr : UnitDraws rng) (x y : ℚ) (n k : ℕ) :
    ∀ q ∈ makePieces rng x y n k, 50 ≤ q.life ∧ q.life ≤ 90 := by
  induction n generalizing k with
  | zero => simp [makePieces]
  | succ n ih =>
    intro q hq
    simp only [makePieces, List.mem_cons] at hq
    rcases hq with rfl | hq
    · exact rand_bounds (rng (k + 3)) 50 90 (hr _).1 (hr _).2 (by norm_num)
    · exact ih _ q hq

theorem makePieces_length (rng : ℕ → ℚ) (x y : ℚ) (n k : ℕ) :
    (makePieces rng x y n k).length = n := by
  induction n generalizing k with
  | zero => rfl
  | succ n ih => simp [makePieces, ih]

theorem tick_frame (b : Burst) : (tick b).1.frame = b.frame + 1 := rfl

theorem tick_life (b : Burst) (bound : ℚ) (h : ∀ q ∈ b.pieces, q.life ≤ bound) :
    ∀ q ∈ (tick b).1.pieces, q.life ≤ bound - 1 := by
  intro q hq
  simp only [tick, List.map_map, List.mem_map, Function.comp] at hq
  obtain ⟨q0, hq0, rfl⟩ := hq
  have := h q0 hq0
  simp only [tickPiece]
  linarith

theorem tick_alpha_zero (b : Burst) (h : ∀ q ∈ b.pieces, q.life ≤ 1) :
    ∀ d ∈ (tick b).2.1, alphaOf d = some 0 := by
  intro d hd
  simp only [tick, List.map_map, List.mem_map, Function.comp] at hd
  obtain ⟨q0, hq0, rfl⟩ := hd
  have := h q0 hq0
  simp only [tickPiece, alphaOf, Option.some.injEq]
  apply max_eq_right
  apply div_nonpos_of_nonpos_of_nonneg <;> linarith

theorem tick_cmds_length (b : Burst) : (tick b).2.1.length = b.pieces.length := by
  simp [tick]

theorem tick_pieces_length (b : Burst) : (tick b).1.pieces.length = b.pieces.length := by
  simp [tick]

theorem runTicks_spec (m : ℕ) : ∀ (b : Burst) (fuel : ℕ), b.frame + (m + 1) = 90 → m + 1 ≤ fuel →
    (∀ q ∈ b.pieces, q.life ≤ (m : ℚ) + 1) →
    (runTicks fuel b).map Prod.fst = (List.range (m + 1)).map (fun i => b.frame + 1 + i) ∧
    ∃ cmds, (runTicks fuel b).getLast? = some (90, cmds) ∧ cmds.length = b.pieces.length ∧
      ∀ d ∈ cmds, alphaOf d = some 0 := by
  induction m with
  | zero =>
    intro b fuel hf hfuel hlife
    obtain ⟨fuel, rfl⟩ : ∃ f, fuel = f + 1 := ⟨fuel - 1, by omega⟩
    have hfr : b.frame + 1 = 90 := by omega
    have hstop : (tick b).2.2 = false := by simp [tick, hfr]
    simp only [runTicks, hstop, tick_frame, hfr]
    refine ⟨by simp [List.range_succ], (tick b).2.1, by simp, tick_cmds_length b, ?_⟩
    exact tick_alpha_zero b (by simpa using hlife)
  | succ m ih =>
    intro b fuel hf hfuel hlife
    obtain ⟨fuel, rfl⟩ : ∃ f, fuel = f + 1 := ⟨fuel - 1, by omega⟩
    have hgo : (tick b).2.2 = true := by simp [tick]; omega
    have hlife2 : ∀ q ∈ (tick b).1.pieces, q.life ≤ (m : ℚ) + 1 := by
      have := tick_life b ((m + 1 : ℕ) + 1) hlife
      intro q hq
      have := this q hq
      push_cast at this
      linarith
    obtain ⟨h1, cmds, h2, h3, h4⟩ := ih (tick b).1 fuel (by rw [tick_frame]; omega) (by omega) hlife2
    have hne : runTicks fuel (tick b).1 ≠ [] := by
      intro hnil; rw [hnil] at h2; simp at h2
    simp only [runTicks, hgo, if_true, List.map_cons, h1, tick_frame]
    refine ⟨?_, cmds, ?_, by rw [h3, tick_pieces_length], h4⟩
    · rw [List.range_succ_eq_map (m + 1)]
      simp only [List.map_cons, List.map_map, Nat.add_zero, List.cons.injEq, true_and]
      apply List.map_congr_left
      intro i _
      simp only [Function.comp]; omega
    · obtain ⟨a, l, hal⟩ := List.exists_cons_of_ne_nil hne
      rw [hal] at h2 ⊢
      rw [List.getLast?_cons_cons]
      exact h2

/-- C6: with every draw of `Math.random()` in `[0, 1)` the particles of
`burstConfetti(x, y, n)` start with `life` in `[50, 90]`; whenever the host
delivers at least 90 frames, `tick` runs exactly 90 times, with `frame` equal to
`1, 2, ..., 90`, and in the 90th run each of the `n` (default 120) particles is
drawn with alpha `max(life / 90, 0) = 0`. -/
theorem confetti_terminates (rng : ℕ → ℚ) (x y : Option ℚ) (n : Option ℕ) (p : Page) (fuel : ℕ)
    (hr : UnitDraws rng) (hfuel : 90 ≤ fuel) :
    (∀ q ∈ (confettiStart rng x y n p).pieces, 50 ≤ q.life ∧ q.life ≤ 90) ∧
    (runTicks fuel (confettiStart rng x y n p)).map Prod.fst = (List.range 90).map (fun i => 1 + i) ∧
    ∃ cmds, (runTicks fuel (confettiStart rng x y n p)).getLast? = some (90, cmds) ∧
      cmds.length = n.getD 120 ∧ ∀ d ∈ cmds, alphaOf d = some 0 := by
  have hl := makePieces_life rng hr (x.getD (p.w * 0.5)) (y.getD (p.h * 0.35)) (n.getD 120) p.draws
  obtain ⟨h1, cmds, h2, h3, h4⟩ := runTicks_spec 89 (confettiStart rng x y n p) fuel rfl hfuel
    (fun q hq => by have := (hl q hq).2; push_cast; linarith)
  refine ⟨hl, ?_, cmds, h2, ?_, h4⟩
  · simpa [confettiStart] using h1
  · rw [h3]; simp [confettiStart, makePieces_length]


theorem confetti_terminates_witness :
    (∀ q ∈ (confettiStart halfDraws none none none demoPage).pieces, 50 ≤ q.life ∧ q.life ≤ 90) ∧
    (runTicks 200 (confettiStart halfDraws none none none demoPage)).map Prod.fst
      = (List.range 90).map (fun i => 1 + i) ∧
    ∃ cmds, (runTicks 200 (confettiStart halfDraws none none none demoPage)).getLast?
        = some (90, cmds) ∧
      cmds.length = (none : Option ℕ).getD 120 ∧ ∀ d ∈ cmds, alphaOf d = some 0 :=
  confetti_terminates halfDraws none none none demoPage 200 halfDraws_unit (by decide)

end Farewell
